import Mathlib

/-!
Verification of the hierarchical configuration resolver (config-array,
config-array-factory, config-dependency, override-tester modules).

The development shallowly embeds the JavaScript source.  Dynamic JavaScript
values are modelled by `JSVal`; records are association lists in insertion
order; JavaScript exceptions are modelled with `Except`.  A second, explicit
heap model (`Store` / `HVal`) is used for the frame property of extraction
(no mutation of the source elements), because aliasing and in-place update
are the essence of that claim.
-/

set_option maxHeartbeats 1000000

/-- Dynamic JavaScript values.  `undef` is the `undefined` value, `func` an
opaque function value (identified by a tag), `obj` a plain object as an
association list of own enumerable keys in insertion order. -/
inductive JSVal where
  | undef
  | null
  | bool (b : Bool)
  | num (n : Int)
  | str (s : String)
  | func (tag : Nat)
  | arr (elts : List JSVal)
  | obj (fields : List (String × JSVal))

/-- `x === undefined`. -/
def JSVal.isUndef : JSVal → Bool
  | .undef => true
  | _ => false

/-- `typeof x === "object" && x !== null` (arrays are objects; `null` is
excluded; functions have `typeof "function"`). -/
def isNonNullObject : JSVal → Bool
  | .arr _ => true
  | .obj _ => true
  | _ => false

/-- JavaScript truthiness of a value. -/
def jsTruthy : JSVal → Bool
  | .undef => false
  | .null => false
  | .bool b => b
  | .num n => n != 0
  | .str s => s != ""
  | .func _ => true
  | .arr _ => true
  | .obj _ => true

mutual

/-- Size measure used for termination of the recursive record merge.
Keys are not counted, so that the enumerated entries of a value are
strictly smaller than the value itself. -/
def jsM : JSVal → Nat
  | .arr xs => 1 + jsMList xs
  | .obj fs => 1 + jsMFields fs
  | _ => 1

def jsMList : List JSVal → Nat
  | [] => 0
  | x :: xs => 1 + jsM x + jsMList xs

def jsMFields : List (String × JSVal) → Nat
  | [] => 0
  | p :: fs => 1 + jsM p.2 + jsMFields fs

end

/-- Pair a list of values with their stringified indices starting at `i`
(the enumerable keys of a JavaScript array). -/
def enumFrom (i : Nat) : List JSVal → List (String × JSVal)
  | [] => []
  | x :: xs => (toString i, x) :: enumFrom (i + 1) xs

/-- `Object.keys(v)` together with the corresponding values, in insertion
order (for arrays: index order). -/
def jsEntries : JSVal → List (String × JSVal)
  | .obj fs => fs
  | .arr xs => enumFrom 0 xs
  | _ => []

/-- Property read `v[k]`; `undefined` when the key is absent or the value
is not key-addressable. -/
def jsGetKey : JSVal → String → JSVal
  | .obj fs, k =>
      match fs.find? (fun p => p.1 = k) with
      | some p => p.2
      | none => .undef
  | .arr xs, k =>
      match k.toNat? with
      | some i => if toString i = k then xs.getD i .undef else .undef
      | none => .undef
  | _, _ => (.undef)

/-- Property write `v[k] = x`.  On objects: replace in place or append.
On arrays: canonical index keys write the element (extending with
`undefined` holes as JavaScript does for out-of-range indices); non-index
keys are not modelled (never reached by the merge engine, whose array
targets only receive index keys). -/
def jsSetKey : JSVal → String → JSVal → JSVal
  | .obj fs, k, x =>
      if (fs.find? (fun p => p.1 = k)).isSome then
        .obj (fs.map (fun p => if p.1 = k then (k, x) else p))
      else
        .obj (fs ++ [(k, x)])
  | .arr xs, k, x =>
      match k.toNat? with
      | some i =>
          if toString i = k then
            if i < xs.length then .arr (xs.set i x)
            else .arr (xs ++ List.replicate (i - xs.length) .undef ++ [x])
          else .arr xs
      | none => .arr xs
  | v, _, _ => v

theorem jsMFields_jsEntries_lt (s : JSVal) (h : isNonNullObject s = true) :
    jsMFields (jsEntries s) < jsM s := by
  cases s with
  | arr xs =>
      have key : ∀ (i : Nat) (l : List JSVal), jsMFields (enumFrom i l) = jsMList l := by
        intro i l
        induction l generalizing i with
        | nil => simp [enumFrom, jsMFields, jsMList]
        | cons x xs ih => simp [enumFrom, jsMFields, jsMList, ih]
      simp [jsEntries, jsM, key]
  | obj fs => simp [jsEntries, jsM]
  | undef => simp [isNonNullObject] at h
  | null => simp [isNonNullObject] at h
  | bool b => simp [isNonNullObject] at h
  | num n => simp [isNonNullObject] at h
  | str s => simp [isNonNullObject] at h
  | func t => simp [isNonNullObject] at h

mutual

/-- `assignWithoutOverwrite(target, source)` of config-array: assign every
property of `source` to `target` if `target` does not have it; recurse into
objects; freshly create (empty object / empty array) missing object-valued
targets before recursing.  Pure rendering of the in-place JavaScript
mutation: the updated target is returned. -/
def assignWithoutOverwrite (target source : JSVal) : JSVal :=
  if h : isNonNullObject source = true then
    awoFold target (jsEntries source)
  else target
termination_by jsM source
decreasing_by
  exact jsMFields_jsEntries_lt source h

/-- The key loop of `assignWithoutOverwrite`. -/
def awoFold (target : JSVal) : List (String × JSVal) → JSVal
  | [] => target
  | (k, sv) :: rest =>
      let tv := jsGetKey target k
      let target' :=
        if isNonNullObject tv then
          jsSetKey target k (assignWithoutOverwrite tv sv)
        else if tv.isUndef then
          if isNonNullObject sv then
            let fresh : JSVal := match sv with | .arr _ => .arr [] | _ => .obj []
            jsSetKey target k (assignWithoutOverwrite fresh sv)
          else if !sv.isUndef then
            jsSetKey target k sv
          else target
        else target
      awoFold target' rest
termination_by l => jsMFields l
decreasing_by
  all_goals simp only [jsMFields]
  all_goals omega

end

/-- `targetDef.length` as compared with `=== 1` in `mergeRules` (arrays and
strings have a numeric `length`; other values give `undefined`). -/
def jsLength : JSVal → Option Nat
  | .arr xs => some xs.length
  | .str s => some s.length
  | _ => none

/-- `Array.isArray`. -/
def JSVal.isArr : JSVal → Bool
  | .arr _ => true
  | _ => false

/-- One key of the `mergeRules` loop of config-array: absent target keys are
stored in array form (`[...src]` for an array, `[src]` for a bare severity);
a severity-only target entry absorbs the options (`src.slice(1)`) of an
array source of length at least 2; anything else is left unchanged. -/
def mergeRulesStep (target : JSVal) (k : String) (sourceDef : JSVal) : JSVal :=
  let targetDef := jsGetKey target k
  if targetDef.isUndef then
    match sourceDef with
    | .arr xs => jsSetKey target k (.arr xs)
    | sd => jsSetKey target k (.arr [sd])
  else
    match targetDef, sourceDef with
    | .arr txs, .arr sxs =>
        if txs.length = 1 ∧ sxs.length ≥ 2 then
          jsSetKey target k (.arr (txs ++ sxs.drop 1))
        else target
    | _, _ => target

/-- `mergeRules(target, source)` of config-array (the `target.push` of the
source is rendered by rebinding the cloned target array; target entries are
always arrays in every reachable state, which the rules invariant below
proves). -/
def mergeRules (target source : JSVal) : JSVal :=
  if isNonNullObject source then
    (jsEntries source).foldl (fun t p => mergeRulesStep t p.1 p.2) target
  else target

/-- A JavaScript `Error` value (message and stack trace). -/
structure JSError where
  message : String
  stack : String := ""
deriving Repr, DecidableEq

/-- `ConfigDependency` of config-dependency.js: the record for a loaded
parser or plugin; exactly one of `definition` / `error` is meaningful. -/
structure ConfigDependency where
  definition : JSVal := .null
  error : Option JSError := none
  filePath : Option String := none
  id : String
  importerName : String
  importerPath : String

/-- `ConfigDependency#toJSON`: the rest-spread `{definition: _ignore, ...obj}`
keeps every remaining own field (in declaration order), whatever its value. -/
def ConfigDependency.toJSON (d : ConfigDependency) : List (String × JSVal) :=
  [ ("error", match d.error with
      | some e => .obj [("message", .str e.message), ("stack", .str e.stack)]
      | none => .null),
    ("filePath", match d.filePath with | some s => .str s | none => .null),
    ("id", .str d.id),
    ("importerName", .str d.importerName),
    ("importerPath", .str d.importerPath) ]

/-- `LoadedEntity` of loaded-entity.js (the earlier revision of the loaded
dependency record; no `importerName` field). -/
structure LoadedEntity where
  definition : JSVal := .null
  error : Option JSError := none
  filePath : Option String := none
  id : String
  importerPath : String

/-- `LoadedEntity#toJSON`: emits `id` and `importerPath`, then `filePath`
and `error.stack` only under their truthiness guards. -/
def LoadedEntity.toJSON (d : LoadedEntity) : List (String × JSVal) :=
  [("id", .str d.id), ("importerPath", .str d.importerPath)]
  ++ (match d.filePath with
      | some s => if s ≠ "" then [("filePath", .str s)] else []
      | none => [])
  ++ (match d.error with
      | some e => [("error", .str e.stack)]
      | none => [])

/-- Association-list read (JavaScript `Map#get` / unique-key object read). -/
def alistGet {α : Type} (m : List (String × α)) (k : String) : Option α :=
  match m.find? (fun p => p.1 = k) with
  | some p => some p.2
  | none => none

/-- Association-list write (JavaScript `Map#set` / object key assignment):
replace in place, or append a new key. -/
def alistPut {α : Type} (m : List (String × α)) (k : String) (v : α) :
    List (String × α) :=
  if (m.find? (fun p => p.1 = k)).isSome then
    m.map (fun p => if p.1 = k then (k, v) else p)
  else m ++ [(k, v)]

/-- The internal slots of a `ConfigArray` that the merge engine fills:
`envMap`, `processorMap`, `ruleMap` (the extraction cache is kept in
`ConfigArrayState` below). -/
structure Slots where
  envMap : List (String × JSVal) := []
  processorMap : List (String × JSVal) := []
  ruleMap : List (String × JSVal) := []

/-- `normalizePluginRule` of config-array: a string is resolved through
`require` (modelled by the external `req`) and renormalized, a function is
wrapped into `{create: rule}`, anything else is used as-is.  `fuel` bounds
the require-chain (the source recursion is unbounded). -/
def normalizePluginRule (req : String → JSVal) : Nat → JSVal → JSVal
  | 0, rule => rule
  | fuel + 1, rule =>
      match rule with
      | .str s => normalizePluginRule req fuel (req s)
      | .func t => .obj [("create", .func t)]
      | r => r

/-- `collect(pluginId, defs, map, normalize)` of config-array: insert every
entry of `defs` under the `pluginId/`-prefixed key (bare key for an empty
plugin id). -/
def collect (pluginId : String) (defs : JSVal) (map : List (String × JSVal))
    (normalize : Option (JSVal → JSVal)) : List (String × JSVal) :=
  if jsTruthy defs then
    (jsEntries defs).foldl
      (fun m p =>
        alistPut m
          ((if pluginId = "" then "" else pluginId ++ "/") ++ p.1)
          (match normalize with | some f => f p.2 | none => p.2))
      map
  else map

/-- The key loop of `mergePlugins(target, source, slots)` of config-array:
a plugin key not yet adopted is adopted (after failing immediately on an
errored dependency) and its `environments` / `processors` / `rules` are
collected into the slots. -/
def mergePluginsLoop (req : String → JSVal) (ruleFuel : Nat) :
    List (String × ConfigDependency) → List (String × ConfigDependency) →
    Slots → Except JSError (List (String × ConfigDependency)) × Slots
  | [], target, slots => (.ok target, slots)
  | (k, dep) :: rest, target, slots =>
      if (alistGet target k).isNone then
        match dep.error with
        | some e => (.error e, slots)
        | none =>
            let target' := alistPut target k dep
            let slots' : Slots :=
              { envMap := collect k (jsGetKey dep.definition "environments")
                  slots.envMap none,
                processorMap := collect k (jsGetKey dep.definition "processors")
                  slots.processorMap none,
                ruleMap := collect k (jsGetKey dep.definition "rules")
                  slots.ruleMap (some (normalizePluginRule req ruleFuel)) }
            mergePluginsLoop req ruleFuel rest target' slots'
      else mergePluginsLoop req ruleFuel rest target slots

/-- `ExtractedConfig` of extracted-config.js, as freshly constructed. -/
structure ExtractedConfig where
  env : JSVal := .obj []
  globals : JSVal := .obj []
  parser : Option ConfigDependency := none
  parserOptions : JSVal := .obj []
  plugins : List (String × ConfigDependency) := []
  processor : Option String := none
  rules : JSVal := .obj []
  settings : JSVal := .obj []

/-- `new ExtractedConfig()`. -/
def newExtractedConfig : ExtractedConfig := {}

/-- `ConfigArrayElement`: one normalized configuration fragment.  The
override tester is abstracted to its `test` predicate on absolute paths
(only `criteria.test(filePath)` is consulted during extraction). -/
structure ConfigArrayElement where
  name : String := ""
  filePath : String := ""
  criteria : Option (String → Bool) := none
  env : JSVal := .undef
  globals : JSVal := .undef
  parser : Option ConfigDependency := none
  parserOptions : JSVal := .undef
  plugins : Option (List (String × ConfigDependency)) := none
  processor : Option String := none
  root : JSVal := .undef
  rules : JSVal := .undef
  settings : JSVal := (.undef)

/-- `!element.criteria || element.criteria.test(filePath)`. -/
def elementMatches (e : ConfigArrayElement) (filePath : String) : Bool :=
  match e.criteria with
  | none => true
  | some test => test filePath

/-- The downward index scan of `getMatchedIndices` (from `n - 1` to `0`). -/
def getMatchedIndicesGo (elements : List ConfigArrayElement)
    (filePath : String) : Nat → List Nat
  | 0 => []
  | i + 1 =>
      if elementMatches (elements.getD i {}) filePath then
        i :: getMatchedIndicesGo elements filePath i
      else getMatchedIndicesGo elements filePath i

/-- `getMatchedIndices(elements, filePath)` of config-array: the indices of
the elements matching the file, from the highest index (highest precedence)
down to the lowest. -/
def getMatchedIndices (elements : List ConfigArrayElement)
    (filePath : String) : List Nat :=
  getMatchedIndicesGo elements filePath elements.length

/-- JavaScript truthiness of a nullable string (the `processor` field). -/
def optStrTruthy : Option String → Bool
  | none => false
  | some s => s ≠ ""

/-- The part of one merge iteration of `createConfig` after the parser
check: processor adoption, the four record merges, plugin merge (which can
fail), and rule merge. -/
def createConfigAfterParser (req : String → JSVal) (ruleFuel : Nat)
    (config : ExtractedConfig) (slots : Slots) (element : ConfigArrayElement) :
    Except JSError ExtractedConfig × Slots :=
  let config :=
    if !optStrTruthy config.processor && optStrTruthy element.processor then
      { config with processor := element.processor }
    else config
  let config :=
    { config with
      env := assignWithoutOverwrite config.env element.env,
      globals := assignWithoutOverwrite config.globals element.globals,
      parserOptions :=
        assignWithoutOverwrite config.parserOptions element.parserOptions,
      settings := assignWithoutOverwrite config.settings element.settings }
  match mergePluginsLoop req ruleFuel (element.plugins.getD [])
      config.plugins slots with
  | (.error e, slots') => (.error e, slots')
  | (.ok plugins', slots') =>
      (.ok { config with
               plugins := plugins',
               rules := mergeRules config.rules element.rules },
       slots')

/-- One merge iteration of `createConfig` of config-array: fail on an
errored parser that would win, adopt a first parser/processor, then merge
records, plugins and rules. -/
def createConfigStep (req : String → JSVal) (ruleFuel : Nat)
    (config : ExtractedConfig) (slots : Slots) (element : ConfigArrayElement) :
    Except JSError ExtractedConfig × Slots :=
  match config.parser, element.parser with
  | none, some dep =>
      match dep.error with
      | some e => (.error e, slots)
      | none =>
          createConfigAfterParser req ruleFuel
            { config with parser := some dep } slots element
  | _, _ => createConfigAfterParser req ruleFuel config slots element

/-- The merge loop of `createConfig` over the matched indices
(highest precedence first). -/
def createConfigLoop (req : String → JSVal) (ruleFuel : Nat)
    (elements : List ConfigArrayElement) :
    List Nat → ExtractedConfig → Slots →
    Except JSError ExtractedConfig × Slots
  | [], config, slots => (.ok config, slots)
  | i :: rest, config, slots =>
      match createConfigStep req ruleFuel config slots (elements.getD i {}) with
      | (.error e, slots') => (.error e, slots')
      | (.ok config', slots') =>
          createConfigLoop req ruleFuel elements rest config' slots'

/-- The after-merge validation loop of `createConfig`
(`validateConfigArrayElement` is an external collaborator, passed in). -/
def validateLoop
    (validate : ConfigArrayElement → (String → Option JSVal) →
      (String → Option JSVal) → Except JSError Unit)
    (elements : List ConfigArrayElement) (slots : Slots) :
    List Nat → Except JSError Unit
  | [] => .ok ()
  | i :: rest =>
      match validate (elements.getD i {})
          (fun id => alistGet slots.ruleMap id)
          (fun id => alistGet slots.envMap id) with
      | .error e => .error e
      | .ok _ => validateLoop validate elements slots rest

/-- `createConfig(instance, indices)` of config-array: fold the matched
elements into a fresh `ExtractedConfig`, then validate each matched element
against the collected plugin maps.  The (possibly partially) updated slots
are returned alongside, also on failure. -/
def createConfig (req : String → JSVal) (ruleFuel : Nat)
    (validate : ConfigArrayElement → (String → Option JSVal) →
      (String → Option JSVal) → Except JSError Unit)
    (elements : List ConfigArrayElement) (indices : List Nat)
    (slots : Slots) : Except JSError ExtractedConfig × Slots :=
  match createConfigLoop req ruleFuel elements indices newExtractedConfig
      slots with
  | (.error e, slots') => (.error e, slots')
  | (.ok config, slots') =>
      match validateLoop validate elements slots' indices with
      | .error e => (.error e, slots')
      | .ok _ => (.ok config, slots')

mutual

/-- Template-literal coercion of a value to a string (used by the invalid
`filePath` error message of `extractConfig`). -/
def jsToDisplay : JSVal → String
  | .undef => "undefined"
  | .null => "null"
  | .bool b => cond b "true" "false"
  | .num n => toString n
  | .str s => s
  | .func t => "function anonymous" ++ toString t
  | .arr xs => jsToDisplayList xs
  | .obj _ => "[object Object]"

/-- `Array#toString`: comma-joined elements, holes and `null` as empty. -/
def jsToDisplayList : List JSVal → String
  | [] => ""
  | [x] =>
      match x with
      | .undef => ""
      | .null => ""
      | v => jsToDisplay v
  | x :: y :: rest =>
      (match x with
       | .undef => ""
       | .null => ""
       | v => jsToDisplay v) ++ "," ++ jsToDisplayList (y :: rest)

end

/-- `path.isAbsolute` (POSIX): the path starts with a separator. -/
def isAbsolutePath (s : String) : Bool :=
  "/".data.isPrefixOf s.data

/-- `typeof v === "string"`. -/
def jsIsString : JSVal → Bool
  | .str _ => true
  | _ => false

/-- The string payload of a string value. -/
def jsAsString : JSVal → String
  | .str s => s
  | _ => ""

/-- The observable state of one `ConfigArray` instance: its elements and
the internal slots (extraction cache keyed by the joined index string, and
the plugin member maps). -/
structure ConfigArrayState where
  elements : List ConfigArrayElement
  cache : List (String × ExtractedConfig) := []
  slots : Slots := {}

/-- A freshly created `ConfigArray` holding the given elements. -/
def initConfigArray (elements : List ConfigArrayElement) : ConfigArrayState :=
  { elements := elements }

/-- `indices.join(",")`. -/
def joinIndices (indices : List Nat) : String :=
  String.intercalate "," (indices.map toString)

/-- `ConfigArray#extractConfig(filePath)` of config-array: validate that the
argument is an absolute path string, select the matched indices, and serve
the extraction from the per-instance cache keyed by the comma-joined index
string, computing and storing it on a miss. -/
def extractConfig (req : String → JSVal) (ruleFuel : Nat)
    (validate : ConfigArrayElement → (String → Option JSVal) →
      (String → Option JSVal) → Except JSError Unit)
    (st : ConfigArrayState) (filePath : JSVal) :
    Except JSError ExtractedConfig × ConfigArrayState :=
  if !jsIsString filePath || !isAbsolutePath (jsAsString filePath) then
    (.error
      { message := "\x27filePath\x27 should be an absolute path, but got "
          ++ jsToDisplay filePath ++ "." },
     st)
  else
    let fp := jsAsString filePath
    let indices := getMatchedIndices st.elements fp
    let cacheKey := joinIndices indices
    match alistGet st.cache cacheKey with
    | some config => (.ok config, st)
    | none =>
        match createConfig req ruleFuel validate st.elements indices
            st.slots with
        | (.error e, slots') => (.error e, { st with slots := slots' })
        | (.ok config, slots') =>
            (.ok config,
             { st with
                 cache := st.cache ++ [(cacheKey, config)],
                 slots := slots' })

/-- The `files` / `excludedFiles` argument of `OverrideTester.create`
(`string | string[] | undefined`, per its declared interface). -/
inductive GlobArg where
  | undef
  | str (s : String)
  | list (xs : List String)
deriving Repr, DecidableEq

/-- `normalizePatterns` of override-tester: an array is filtered by
truthiness, a non-empty string becomes a singleton, anything else the empty
list. -/
def normalizePatterns : GlobArg → List String
  | .list xs => xs.filter (fun s => s ≠ "")
  | .str s => if s ≠ "" then [s] else []
  | .undef => []

/-- Substring test on character lists (`String#includes`). -/
def charsInclude (sub : List Char) : List Char → Bool
  | [] => sub.isPrefixOf []
  | c :: rest => sub.isPrefixOf (c :: rest) || charsInclude sub rest

/-- `s.includes(sub)`. -/
def strIncludes (s sub : String) : Bool :=
  charsInclude sub.data s.data

/-- The per-pattern rejection test of `OverrideTester.create`:
`path.isAbsolute(pattern) || pattern.includes("..")`. -/
def isInvalidOverridePattern (pattern : String) : Bool :=
  isAbsolutePath pattern || strIncludes pattern ".."

/-- A compiled `Minimatch` matcher (`{dot: true, matchBase: true}`); only
the stored pattern is relevant to the construction claims. -/
structure Minimatch where
  pattern : String
deriving Repr, DecidableEq

/-- One pattern group of an `OverrideTester`. -/
structure PatternGroup where
  includes : Option (List Minimatch)
  excludes : Option (List Minimatch)
deriving Repr, DecidableEq

/-- `OverrideTester` of override-tester: pattern groups and the base path. -/
structure OverrideTester where
  patterns : List PatternGroup
  basePath : String
deriving Repr, DecidableEq

/-- `toMatcher`: `null` for the empty pattern list, else the compiled
matchers. -/
def toMatcher (patterns : List String) : Option (List Minimatch) :=
  if patterns.length = 0 then none
  else some (patterns.map (fun p => { pattern := p }))

/-- `OverrideTester.create(files, excludedFiles, basePath)`: normalize both
inputs, return the absent tester when no pattern remains, reject (at the
first offender) any absolute pattern or any pattern containing the
substring `..`, else build a single-group tester on the base path. -/
def OverrideTester.create (files excludedFiles : GlobArg) (basePath : String) :
    Except JSError (Option OverrideTester) :=
  let includePatterns := normalizePatterns files
  let excludePatterns := normalizePatterns excludedFiles
  let allPatterns := includePatterns ++ excludePatterns
  if allPatterns.length = 0 then .ok none
  else
    match allPatterns.find? isInvalidOverridePattern with
    | some pattern =>
        .error
          { message :=
              "Invalid override pattern (expected relative path not containing \x27..\x27): "
                ++ pattern }
    | none =>
        .ok (some
          { patterns :=
              [{ includes := toMatcher includePatterns,
                 excludes := toMatcher excludePatterns }],
            basePath := basePath })

/-- Split a character list at `/` separators. -/
def slashSegments (acc : List Char) : List Char → List (List Char)
  | [] => [acc.reverse]
  | c :: rest =>
      if c = '/' then acc.reverse :: slashSegments [] rest
      else slashSegments (c :: acc) rest

/-- Modelled from the spec (for the comparison in C6 only): a pattern
"contains a `..` segment" when some `/`-separated segment is exactly
`..`.  This is the claim's wording, to be compared with the source's
substring test `pattern.includes("..")`. -/
def hasDotDotSegment (pattern : String) : Bool :=
  (slashSegments [] pattern.data).any (fun seg => seg = ['.', '.'])

/-- `isFilePath(nameOrPath)` of config-array-factory: a dotted relative
prefix (`./`, `.\`, `../`, `..\`) or an absolute path. -/
def isFilePathStr (s : String) : Bool :=
  "./".data.isPrefixOf s.data || ".\\".data.isPrefixOf s.data
    || "../".data.isPrefixOf s.data || "..\\".data.isPrefixOf s.data
    || isAbsolutePath s

/-- `ConfigArrayFactory` construction state: the two additional pools and
the working directory.  `additionalParserPool` is stored by the constructor
but (as the development shows) never consulted. -/
structure ConfigArrayFactory where
  additionalParserPool : List (String × JSVal) := []
  additionalPluginPool : List (String × JSVal) := []
  cwd : String

/-- `path.join(dir, file)` for the one fixed use `path.join(cwd, "a.js")`. -/
def joinPath (dir file : String) : String :=
  dir ++ "/" ++ file

/-- `ConfigArrayFactory#_loadParser(nameOrPath, importerPath, importerName)`:
consult the additional pool (the source reads `this._additionalPluginPool`),
else resolve relative to the importer (or `cwd + "/a.js"` when absent) and
require the resolved file, capturing any failure into the dependency.
`resolve` and `req` model the external module system. -/
def ConfigArrayFactory.loadParser (f : ConfigArrayFactory)
    (resolve : String → String → Except JSError String)
    (req : String → Except JSError JSVal)
    (nameOrPath importerPath importerName : String) : ConfigDependency :=
  match alistGet f.additionalPluginPool nameOrPath with
  | some parser =>
      { definition := parser,
        error := none,
        filePath := some importerPath,
        id := nameOrPath,
        importerName := importerName,
        importerPath := importerPath }
  | none =>
      match resolve nameOrPath
          (if importerPath = "" then joinPath f.cwd "a.js"
           else importerPath) with
      | .error e =>
          { error := some e, id := nameOrPath,
            importerName := importerName, importerPath := importerPath }
      | .ok filePath =>
          match req filePath with
          | .error e =>
              { error := some e, id := nameOrPath,
                importerName := importerName, importerPath := importerPath }
          | .ok definition =>
              { definition := definition,
                error := none,
                filePath := some filePath,
                id := nameOrPath,
                importerName := importerName,
                importerPath := importerPath }

/-- `ConfigArrayFactory#_loadPlugins(names, importerPath, importerName)`:
reduce over the specifiers, throwing at the first file-path-shaped
specifier, otherwise keying each loaded plugin by its id.  The per-name
`_loadPlugin` method is abstracted by `loadPlugin` (it never throws: its
failures are captured in the returned dependency). -/
def loadPlugins (loadPlugin : String → ConfigDependency)
    (names : List String) :
    Except JSError (List (String × ConfigDependency)) :=
  names.foldlM
    (fun map name =>
      if isFilePathStr name then
        .error { message := "Plugins array cannot includes file paths." }
      else
        let plugin := loadPlugin name
        .ok (alistPut map plugin.id plugin))
    []

/-! ## Heap model

For the frame property of extraction (the claim that merging never mutates
the source elements) the merge engine is re-embedded over an explicit heap:
`HVal` is a primitive value or a reference, `Store` the heap of mutable
objects and arrays.  Only heap writes are observable mutations. -/

/-- A heap-level JavaScript value: primitives plus references to mutable
objects. -/
inductive HVal where
  | undef
  | null
  | bool (b : Bool)
  | num (n : Int)
  | str (s : String)
  | ref (r : Nat)
deriving Repr, DecidableEq

/-- A heap object: a plain object (own enumerable fields in insertion
order) or an array. -/
inductive HObj where
  | obj (fields : List (String × HVal))
  | arr (elts : List HVal)
deriving Repr, DecidableEq

/-- The heap: allocation appends, references are list indices. -/
abbrev Store := List HObj

/-- The field/element values of one heap object. -/
def objVals : HObj → List HVal
  | .obj fs => fs.map Prod.snd
  | .arr xs => xs

/-- The field/element values stored at reference `r`. -/
def storeVals (s : Store) (r : Nat) : List HVal :=
  match s[r]? with
  | some o => objVals o
  | none => []

/-- Property read on one heap object (arrays only via canonical index
keys; out-of-range holes read as `undefined`). -/
def hGetObj : HObj → String → HVal
  | .obj fs, k =>
      match fs.find? (fun p => p.1 = k) with
      | some p => p.2
      | none => .undef
  | .arr xs, k =>
      match k.toNat? with
      | some i => if toString i = k then xs.getD i .undef else .undef
      | none => (.undef)

/-- Heap read `s[r][k]`. -/
def hGet (s : Store) (r : Nat) (k : String) : HVal :=
  match s[r]? with
  | some o => hGetObj o k
  | none => (.undef)

/-- Property write on one heap object (with `undefined` holes for
out-of-range array indices; non-index keys on arrays are not modelled,
matching the merge engine which only writes index keys into arrays). -/
def hSetObj : HObj → String → HVal → HObj
  | .obj fs, k, v =>
      if (fs.find? (fun p => p.1 = k)).isSome then
        .obj (fs.map (fun p => if p.1 = k then (k, v) else p))
      else .obj (fs ++ [(k, v)])
  | .arr xs, k, v =>
      match k.toNat? with
      | some i =>
          if toString i = k then
            if i < xs.length then .arr (xs.set i v)
            else .arr (xs ++ List.replicate (i - xs.length) .undef ++ [v])
          else .arr xs
      | none => .arr xs

/-- Heap write `s[r][k] = v`. -/
def hSet (s : Store) (r : Nat) (k : String) (v : HVal) : Store :=
  match s[r]? with
  | some o => s.set r (hSetObj o k v)
  | none => s

/-- `Object.keys` of the object at `r`. -/
def hKeys (s : Store) (r : Nat) : List String :=
  match s[r]? with
  | some (.obj fs) => fs.map Prod.fst
  | some (.arr xs) => (List.range xs.length).map toString
  | none => []

/-- `Array.isArray(v)` over the heap. -/
def hIsArr : Store → HVal → Bool
  | s, .ref r =>
      (match s[r]? with
       | some (.arr _) => true
       | _ => false)
  | _, _ => false

/-- `v.length` over the heap (`undefined`, i.e. `none`, unless `v` is an
array reference; string lengths are irrelevant to the heap merge engine,
whose targets are always array references). -/
def hLen : Store → HVal → Option Nat
  | s, .ref r =>
      (match s[r]? with
       | some (.arr xs) => some xs.length
       | _ => none)
  | _, _ => none

/-- The elements of the array referenced by `v` (`[...v]`). -/
def hElts : Store → HVal → List HVal
  | s, .ref r =>
      (match s[r]? with
       | some (.arr xs) => xs
       | _ => [])
  | _, _ => []

/-- `v.push(ws)` on the array referenced by `v`. -/
def hPush : Store → HVal → List HVal → Store
  | s, .ref r, ws =>
      (match s[r]? with
       | some (.arr xs) => s.set r (HObj.arr (xs ++ ws))
       | _ => s)
  | s, _, _ => s

/-- JavaScript truthiness of a heap value (references are objects, hence
truthy). -/
def hTruthy : HVal → Bool
  | .undef => false
  | .null => false
  | .bool b => b
  | .num n => n != 0
  | .str s => s != ""
  | .ref _ => true

/-- Property read `v[k]` through a possibly-non-reference value
(`undefined` on primitives). -/
def hGetVal : Store → HVal → String → HVal
  | s, .ref r, k => hGet s r k
  | _, _, _ => .undef

mutual

/-- Heap-level `assignWithoutOverwrite(target, source)`: `tref` is the
target reference, `src` the source value (a no-op unless it references an
object).  `fuel` bounds the recursion depth (the source recursion is
unbounded on cyclic data); every theorem below holds for all fuel. -/
def awoH : Nat → Store → Nat → HVal → Store
  | 0, s, _, _ => s
  | fuel + 1, s, tref, src =>
      match src with
      | .ref sref => awoFoldH fuel s tref sref (hKeys s sref)
      | _ => s
termination_by fuel _ _ _ => (fuel, 0, 0)

/-- One key of the heap-level `assignWithoutOverwrite`: recurse into an
object-valued target entry, write a scalar into an absent entry, or
allocate a fresh empty object/array for an absent entry with an
object-valued source and recurse into it. -/
def awoStepH : Nat → Store → Nat → Nat → String → Store
  | fuel, s, tref, sref, k =>
      match hGet s tref k with
      | .ref tr => awoH fuel s tr (hGet s sref k)
      | .undef =>
          match hGet s sref k with
          | .ref sr =>
              let fresh : HObj :=
                if hIsArr s (.ref sr) then .arr [] else .obj []
              awoH fuel (hSet (s ++ [fresh]) tref k (.ref s.length))
                s.length (.ref sr)
          | .undef => s
          | w => hSet s tref k w
      | _ => s
termination_by fuel _ _ _ _ => (fuel, 1, 0)

/-- The key loop of the heap-level `assignWithoutOverwrite`. -/
def awoFoldH : Nat → Store → Nat → Nat → List String → Store
  | _, s, _, _, [] => s
  | fuel, s, tref, sref, k :: rest =>
      awoFoldH fuel (awoStepH fuel s tref sref k) tref sref rest
termination_by fuel _ _ _ l => (fuel, 2, l.length)

end

/-- One key of the heap-level `mergeRules` loop: the absent-key case
allocates the clone `[...src]` (or the singleton `[src]`), the
severity-only case pushes `src.slice(1)` onto the existing target array in
place. -/
def mergeRulesStepH (s : Store) (tref sref : Nat) (k : String) : Store :=
  let targetDef := hGet s tref k
  let sourceDef := hGet s sref k
  match targetDef with
  | .undef =>
      let newObj : HObj :=
        if hIsArr s sourceDef then .arr (hElts s sourceDef)
        else .arr [sourceDef]
      let newRef := s.length
      hSet (s ++ [newObj]) tref k (.ref newRef)
  | tv =>
      if hLen s tv = some 1 ∧ hIsArr s sourceDef
          ∧ (hLen s sourceDef).getD 0 ≥ 2 then
        hPush s tv ((hElts s sourceDef).drop 1)
      else s

/-- Heap-level `mergeRules(target, source)`. -/
def mergeRulesH (s : Store) (tref : Nat) (src : HVal) : Store :=
  match src with
  | .ref sref => (hKeys s sref).foldl (fun t k => mergeRulesStepH t tref sref k) s
  | _ => s

/-- The key loop of the heap-level `mergePlugins(target, source)`: adopt
first-seen plugin entries, throwing the entry's `error` when present.  (The
`collect` calls into the plugin member maps only read the heap and write
external maps; they are omitted here.)  Returns the thrown error, if any,
with the store as mutated so far. -/
def mergePluginsLoopH (s : Store) (tref sref : Nat) :
    List String → Option HVal × Store
  | [] => (none, s)
  | k :: rest =>
      let targetValue := hGet s tref k
      let sourceValue := hGet s sref k
      match targetValue with
      | .undef =>
          let errv := hGetVal s sourceValue "error"
          if hTruthy errv then (some errv, s)
          else mergePluginsLoopH (hSet s tref k sourceValue) tref sref rest
      | _ => mergePluginsLoopH s tref sref rest

/-- Heap-level `mergePlugins(target, source)`. -/
def mergePluginsH (s : Store) (tref : Nat) (src : HVal) : Option HVal × Store :=
  match src with
  | .ref sref => mergePluginsLoopH s tref sref (hKeys s sref)
  | _ => (none, s)

/-- A heap-level config array element: each config field is a heap value
(typically a reference into the store holding the element's data). -/
structure HElement where
  env : HVal := .undef
  globals : HVal := .undef
  parser : HVal := .undef
  parserOptions : HVal := .undef
  plugins : HVal := .undef
  processor : HVal := .undef
  rules : HVal := .undef
  settings : HVal := (.undef)

/-- The heap-level `ExtractedConfig`: references to its six freshly
allocated records plus the two scalar-adopted fields. -/
structure HExtractedConfig where
  env : Nat
  globals : Nat
  parser : HVal
  parserOptions : Nat
  plugins : Nat
  processor : HVal
  rules : Nat
  settings : Nat

/-- `new ExtractedConfig()` over the heap: allocate the six empty records
(in the constructor's field order), `parser` and `processor` start `null`. -/
def newExtractedConfigH (s : Store) : HExtractedConfig × Store :=
  ({ env := s.length,
     globals := s.length + 1,
     parser := .null,
     parserOptions := s.length + 2,
     plugins := s.length + 3,
     processor := .null,
     rules := s.length + 4,
     settings := s.length + 5 },
   s ++ [.obj [], .obj [], .obj [], .obj [], .obj [], .obj []])

/-- The merge tail of one `createConfig` iteration, after parser and
processor adoption: the four record merges, the plugin merge (which can
throw), and the rule merge. -/
def stepTail2H (fuel : Nat) (s : Store) (config : HExtractedConfig)
    (e : HElement) : Option HVal × Store × HExtractedConfig :=
  let s := awoH fuel s config.env e.env
  let s := awoH fuel s config.globals e.globals
  let s := awoH fuel s config.parserOptions e.parserOptions
  let s := awoH fuel s config.settings e.settings
  match mergePluginsH s config.plugins e.plugins with
  | (some errv, s) => (some errv, s, config)
  | (none, s) => (none, mergeRulesH s config.rules e.rules, config)

/-- Processor adoption followed by the merge tail. -/
def stepTailH (fuel : Nat) (s : Store) (config : HExtractedConfig)
    (e : HElement) : Option HVal × Store × HExtractedConfig :=
  stepTail2H fuel s
    (if !hTruthy config.processor && hTruthy e.processor then
       { config with processor := e.processor }
     else config) e

/-- One merge iteration of the heap-level `createConfig`: parser failure /
adoption, processor adoption, the four record merges, plugin merge
(which can throw), rule merge. -/
def createConfigStepH (fuel : Nat) (s : Store) (config : HExtractedConfig)
    (e : HElement) : Option HVal × Store × HExtractedConfig :=
  if !hTruthy config.parser && hTruthy e.parser then
    if hTruthy (hGetVal s e.parser "error") then
      (some (hGetVal s e.parser "error"), s, config)
    else stepTailH fuel s { config with parser := e.parser } e
  else stepTailH fuel s config e

/-- The merge loop of the heap-level `createConfig`. -/
def createConfigLoopH (fuel : Nat) (elements : List HElement) :
    List Nat → Store → HExtractedConfig → Option HVal × Store
  | [], s, _ => (none, s)
  | i :: rest, s, config =>
      match createConfigStepH fuel s config (elements.getD i {}) with
      | (some errv, s', _) => (some errv, s')
      | (none, s', config') => createConfigLoopH fuel elements rest s' config'

/-- The heap-level `createConfig(instance, indices)`: allocate the fresh
`ExtractedConfig` and fold the matched elements into it.  (The post-fold
validation loop only reads elements and the collected maps; it performs no
heap writes and is omitted.) -/
def createConfigH (fuel : Nat) (elements : List HElement) (indices : List Nat)
    (s : Store) : Option HVal × Store :=
  match newExtractedConfigH s with
  | (config, s') => createConfigLoopH fuel elements indices s' config

mutual

/-- Read back the value tree below a heap value, to the given depth (used
to state value-equality of element data across extraction). -/
def readTree : Nat → Store → HVal → JSVal
  | 0, _, _ => .undef
  | _ + 1, _, .undef => .undef
  | _ + 1, _, .null => .null
  | _ + 1, _, .bool b => .bool b
  | _ + 1, _, .num n => .num n
  | _ + 1, _, .str str => .str str
  | d + 1, s, .ref r =>
      match s[r]? with
      | some (.obj fs) => .obj (readTreeFields d s fs)
      | some (.arr xs) => .arr (readTreeList d s xs)
      | none => .undef

def readTreeFields : Nat → Store → List (String × HVal) → List (String × JSVal)
  | _, _, [] => []
  | d, s, p :: rest => (p.1, readTree d s p.2) :: readTreeFields d s rest

def readTreeList : Nat → Store → List HVal → List JSVal
  | _, _, [] => []
  | d, s, v :: rest => readTree d s v :: readTreeList d s rest

end

/-- Every reference stored in a live heap object is itself live. -/
def storeClosed (s : Store) : Prop :=
  ∀ r, r < s.length → ∀ v ∈ storeVals s r, ∀ r', v = HVal.ref r' → r' < s.length

/-- A heap value references (if anything) a live object. -/
def valBounded (s : Store) (v : HVal) : Prop :=
  ∀ r, v = HVal.ref r → r < s.length

/-- A reference set closed under the stored references of its members. -/
def refClosed (s : Store) (A : Set Nat) : Prop :=
  ∀ r ∈ A, ∀ v ∈ storeVals s r, ∀ r', v = HVal.ref r' → r' ∈ A

/-- Every member of the set is a live reference. -/
def setBounded (s : Store) (A : Set Nat) : Prop :=
  ∀ r ∈ A, r < s.length

/-- The relation between a store and a set of owned references before and
after a merge operation: the owned set only grows by freshly allocated
references, stays closed and live, and nothing outside it changes. -/
def StoreExt (s s' : Store) (A A' : Set Nat) : Prop :=
  A ⊆ A' ∧ refClosed s' A' ∧ setBounded s' A'
    ∧ (∀ r, r ∉ A' → s'[r]? = s[r]?)
    ∧ (∀ r ∈ A', r ∈ A ∨ s.length ≤ r)
    ∧ s.length ≤ s'.length

/-- Every heap object below `n0` is untouched. -/
def frameBelow (n0 : Nat) (s s2 : Store) : Prop :=
  ∀ r, r < n0 → s2[r]? = s[r]?

/-- The invariant carried through the heap-level merge loop: `A` is the
set of references owned by the deep-merged records (`env`, `globals`,
`parserOptions`, `settings`), all freshly allocated; the `rules` and
`plugins` records are fresh, outside `A`, and the direct children of
`rules` are fresh arrays distinct from every other write target. -/
structure CreateInv (n0 : Nat) (s : Store) (A : Set Nat)
    (config : HExtractedConfig) : Prop where
  n0LeLen : n0 ≤ s.length
  closed : refClosed s A
  bounded : setBounded s A
  above : ∀ r ∈ A, n0 ≤ r
  envA : config.env ∈ A
  globalsA : config.globals ∈ A
  parserOptionsA : config.parserOptions ∈ A
  settingsA : config.settings ∈ A
  rulesNotA : config.rules ∉ A
  rulesAbove : n0 ≤ config.rules
  rulesLt : config.rules < s.length
  rulesKids : ∀ tr, HVal.ref tr ∈ storeVals s config.rules →
    n0 ≤ tr ∧ tr < s.length ∧ tr ∉ A ∧ tr ≠ config.rules
      ∧ tr ≠ config.plugins
  pluginsNotA : config.plugins ∉ A
  pluginsAbove : n0 ≤ config.plugins
  pluginsLt : config.plugins < s.length
  pluginsNeRules : config.plugins ≠ config.rules

/-- The rules record of an extracted config is an object all of whose
values are arrays (the canonical array form of §rules). -/
def rulesObjAllArrays (v : JSVal) : Prop :=
  ∃ fs, v = JSVal.obj fs ∧ ∀ p ∈ fs, ∃ xs, p.2 = JSVal.arr xs

/-! ## Theorems -/

theorem foldlM_except_error {α β : Type} (f : β → α → Except JSError β)
    (err : JSError) (p : α → Bool)
    (hf : ∀ b a, p a = true → f b a = .error err)
    (hok : ∀ b a, p a = false → ∃ b', f b a = .ok b') :
    ∀ (l : List α) (acc : β), (∃ x ∈ l, p x = true) →
      l.foldlM f acc = .error err := by
  intro l
  induction l with
  | nil => intro acc h; rcases h with ⟨x, hx, _⟩; cases hx
  | cons a rest ih =>
      intro acc h
      by_cases ha : p a = true
      · have := hf acc a ha
        simp [List.foldlM_cons, this]
        rfl
      · have ha' : p a = false := by revert ha; cases p a <;> simp
        rcases hok acc a ha' with ⟨b', hb'⟩
        have hrest : ∃ x ∈ rest, p x = true := by
          rcases h with ⟨x, hx, hpx⟩
          rcases List.mem_cons.mp hx with rfl | hmem
          · exact absurd hpx ha
          · exact ⟨x, hmem, hpx⟩
        simp [List.foldlM_cons, hb']
        exact ih b' hrest

theorem foldlM_except_ok {α β : Type} (f : β → α → Except JSError β)
    (p : α → Bool)
    (hok : ∀ b a, p a = false → ∃ b', f b a = .ok b') :
    ∀ (l : List α) (acc : β), (∀ x ∈ l, p x = false) →
      ∃ b', l.foldlM f acc = .ok b' := by
  intro l
  induction l with
  | nil => intro acc _; exact ⟨acc, rfl⟩
  | cons a rest ih =>
      intro acc h
      rcases hok acc a (h a (List.mem_cons_self a rest)) with ⟨b', hb'⟩
      rcases ih b' (fun x hx => h x (List.mem_cons_of_mem a hx)) with ⟨b'', hb''⟩
      refine ⟨b'', ?_⟩
      simp [List.foldlM_cons, hb']
      exact hb''

/-- C10: a plugins list containing a file-path-shaped specifier (dotted
relative prefix or absolute path) makes `_loadPlugins` throw immediately
with the message `Plugins array cannot includes file paths.`, whatever the
per-name loader would do; a list with no such specifier is loaded into a
map without throwing (failures are instead captured inside the returned
dependencies). -/
theorem loadPlugins_filepath_throws_c10
    (loadPlugin : String → ConfigDependency) (names : List String) :
    ((∃ n ∈ names, isFilePathStr n = true) →
      loadPlugins loadPlugin names =
        .error { message := "Plugins array cannot includes file paths." })
    ∧ ((∀ n ∈ names, isFilePathStr n = false) →
      ∃ m, loadPlugins loadPlugin names = .ok m) := by
  constructor
  · intro h
    unfold loadPlugins
    apply foldlM_except_error _ _ isFilePathStr
    · intro b a ha; simp [ha]
    · intro b a ha
      exact ⟨alistPut b (loadPlugin a).id (loadPlugin a), by simp [ha]⟩
    · exact h
  · intro h
    unfold loadPlugins
    exact foldlM_except_ok _ isFilePathStr
      (fun b a ha =>
        ⟨alistPut b (loadPlugin a).id (loadPlugin a), by simp [ha]⟩)
      names [] h

/-- Witness for C10 at a concrete input. -/
theorem loadPlugins_filepath_throws_c10_witness :
    (loadPlugins (fun n => { id := n, importerName := "", importerPath := "" })
        ["ok-plugin", "./local-plugin"] =
      .error { message := "Plugins array cannot includes file paths." })
    ∧ ∃ m, loadPlugins
        (fun n => { id := n, importerName := "", importerPath := "" })
        ["ok-plugin"] = .ok m := by
  constructor
  · exact (loadPlugins_filepath_throws_c10 _ _).1
      ⟨"./local-plugin", by simp, by decide⟩
  · exact (loadPlugins_filepath_throws_c10 _ _).2
      (by intro n hn; simp at hn; subst hn; decide)

/-- C5 (code bug): `_loadParser` consults `_additionalPluginPool`, not the
`_additionalParserPool` its constructor documents and stores.  At this
input the parser pool maps the requested id, yet the loader still invokes
the module resolver and returns the resolver's failure captured in the
dependency instead of the pool's definition. -/
theorem loadParser_ignores_parser_pool_c5 :
    (ConfigArrayFactory.loadParser
        { additionalParserPool := [("my-parser", JSVal.str "POOL-PARSER")],
          additionalPluginPool := [],
          cwd := "/cwd" }
        (fun _ _ => .error { message := "resolver invoked" })
        (fun _ => .ok .null)
        "my-parser" "/project/.eslintrc.js" "my-config")
      = { definition := .null,
          error := some { message := "resolver invoked" },
          filePath := none,
          id := "my-parser",
          importerName := "my-config",
          importerPath := "/project/.eslintrc.js" }
    ∧ alistGet
        (ConfigArrayFactory.additionalParserPool
          { additionalParserPool := [("my-parser", JSVal.str "POOL-PARSER")],
            additionalPluginPool := [],
            cwd := "/cwd" })
        "my-parser" = some (JSVal.str "POOL-PARSER") := by
  exact ⟨rfl, rfl⟩

/-- C8 counterexample: a `ConfigDependency` with no file path and no error.
The claim predicts a serialization with exactly the keys `id` and
`importerPath`; the implementation (rest-spread minus `definition`) also
emits `error`, `filePath` (as `null`) and `importerName`. -/
theorem dependency_tojson_counterexample_c8 :
    (ConfigDependency.toJSON
        { id := "espree", importerName := "cfg", importerPath := "/p" }).map
        Prod.fst
      = ["error", "filePath", "id", "importerName", "importerPath"]
    ∧ (ConfigDependency.toJSON
        { id := "espree", importerName := "cfg", importerPath := "/p" }).map
        Prod.fst ≠ ["id", "importerPath"]
    ∧ alistGet (ConfigDependency.toJSON
        { id := "espree", importerName := "cfg", importerPath := "/p" })
        "filePath" = some .null := by
  exact ⟨by decide, by decide, rfl⟩

/-- C8 (amended): neither serialization ever emits `definition`.
`LoadedEntity#toJSON` emits exactly `id` and `importerPath`, plus
`filePath` only when present (truthy) and the error's stack only when an
error is present.  `ConfigDependency#toJSON` instead emits every remaining
own field — `error`, `filePath`, `id`, `importerName`, `importerPath` —
unconditionally (absent ones as `null`, the error as the raw object). -/
theorem dependency_tojson_c8_amended :
    (∀ d : LoadedEntity,
      d.toJSON.map Prod.fst
        = ["id", "importerPath"]
          ++ (match d.filePath with
              | some s => if s ≠ "" then ["filePath"] else []
              | none => [])
          ++ (match d.error with | some _ => ["error"] | none => [])
      ∧ alistGet d.toJSON "id" = some (.str d.id)
      ∧ alistGet d.toJSON "importerPath" = some (.str d.importerPath)
      ∧ (∀ e, d.error = some e →
          alistGet d.toJSON "error" = some (.str e.stack))
      ∧ "definition" ∉ d.toJSON.map Prod.fst)
    ∧ (∀ d : ConfigDependency,
      d.toJSON.map Prod.fst
        = ["error", "filePath", "id", "importerName", "importerPath"]
      ∧ "definition" ∉ d.toJSON.map Prod.fst) := by
  constructor
  · intro d
    refine ⟨?_, ?_, ?_, ?_, ?_⟩
    · rcases d with ⟨defn, err, fp, id, ip⟩
      rcases err with _ | e <;> rcases fp with _ | s <;>
        simp [LoadedEntity.toJSON] <;> split_ifs <;> simp
    · rcases d with ⟨defn, err, fp, id, ip⟩
      simp [LoadedEntity.toJSON, alistGet]
    · rcases d with ⟨defn, err, fp, id, ip⟩
      rcases err with _ | e <;> rcases fp with _ | s <;>
        simp [LoadedEntity.toJSON, alistGet, List.find?] <;>
        split_ifs <;> simp [List.find?]
    · intro e he
      rcases d with ⟨defn, err, fp, id, ip⟩
      cases he
      rcases fp with _ | s <;>
        simp [LoadedEntity.toJSON, alistGet, List.find?] <;>
        split_ifs <;> simp [List.find?]
    · rcases d with ⟨defn, err, fp, id, ip⟩
      rcases err with _ | e <;> rcases fp with _ | s <;>
        simp [LoadedEntity.toJSON] <;> split_ifs <;> simp
  · intro d
    exact ⟨by simp [ConfigDependency.toJSON], by simp [ConfigDependency.toJSON]⟩

/-- Witness for the amended C8 at concrete inputs. -/
theorem dependency_tojson_c8_amended_witness :
    (LoadedEntity.toJSON
        { error := some { message := "boom", stack := "trace" },
          id := "p", importerPath := "/i" }).map Prod.fst
      = ["id", "importerPath", "error"]
    ∧ alistGet (LoadedEntity.toJSON
        { error := some { message := "boom", stack := "trace" },
          id := "p", importerPath := "/i" }) "error"
      = some (.str "trace") := by
  constructor
  · exact (dependency_tojson_c8_amended.1
      { error := some { message := "boom", stack := "trace" },
        id := "p", importerPath := "/i" }).1
  · exact (dependency_tojson_c8_amended.1
      { error := some { message := "boom", stack := "trace" },
        id := "p", importerPath := "/i" }).2.2.2.1
      { message := "boom", stack := "trace" } rfl

/-- C6 counterexample: the pattern `a..b` is relative and contains no `..`
path segment, yet `OverrideTester.create` rejects it, because the source
checks for `..` as a substring (`pattern.includes("..")`), not as a
segment. -/
theorem override_create_counterexample_c6 :
    OverrideTester.create (.list ["a..b"]) (.undef) "/base"
      = .error
          { message :=
              "Invalid override pattern (expected relative path not containing \x27..\x27): a..b" }
    ∧ isAbsolutePath "a..b" = false
    ∧ hasDotDotSegment "a..b" = false := by
  refine ⟨rfl, by decide, by decide⟩

/-- C6 (amended): `OverrideTester.create(files, excludedFiles, basePath)`
throws an invalid-override-pattern error exactly when some normalized
input pattern is an absolute path or contains `..` as a substring; when
both inputs normalize to the empty pattern list it returns the absent
tester; otherwise it returns a tester with a single pattern group and the
given base path. -/
theorem override_create_c6_amended (files excludedFiles : GlobArg)
    (basePath : String) :
    ((∃ e, OverrideTester.create files excludedFiles basePath = .error e) ↔
      ∃ p ∈ normalizePatterns files ++ normalizePatterns excludedFiles,
        isInvalidOverridePattern p = true)
    ∧ (normalizePatterns files ++ normalizePatterns excludedFiles = [] →
        OverrideTester.create files excludedFiles basePath = .ok none)
    ∧ ((normalizePatterns files ++ normalizePatterns excludedFiles ≠ [])
        → (∀ p ∈ normalizePatterns files ++ normalizePatterns excludedFiles,
            isInvalidOverridePattern p = false)
        → OverrideTester.create files excludedFiles basePath =
            .ok (some
              { patterns :=
                  [{ includes := toMatcher (normalizePatterns files),
                     excludes := toMatcher (normalizePatterns excludedFiles) }],
                basePath := basePath })) := by
  have hcreate : OverrideTester.create files excludedFiles basePath
      = (if (normalizePatterns files
              ++ normalizePatterns excludedFiles).length = 0 then
           Except.ok none
         else
           match (normalizePatterns files
               ++ normalizePatterns excludedFiles).find?
               isInvalidOverridePattern with
           | some pattern =>
               Except.error
                 { message :=
                     "Invalid override pattern (expected relative path not containing \x27..\x27): "
                       ++ pattern }
           | none =>
               Except.ok (some
                 { patterns :=
                     [{ includes := toMatcher (normalizePatterns files),
                        excludes :=
                          toMatcher (normalizePatterns excludedFiles) }],
                   basePath := basePath })) := rfl
  refine ⟨?_, ?_, ?_⟩
  · constructor
    · rintro ⟨e, he⟩
      rw [hcreate] at he
      by_cases hlen :
          (normalizePatterns files ++ normalizePatterns excludedFiles).length
            = 0
      · rw [if_pos hlen] at he; cases he
      · rw [if_neg hlen] at he
        rcases hfind : (normalizePatterns files
            ++ normalizePatterns excludedFiles).find?
            isInvalidOverridePattern with _ | p
        · rw [hfind] at he; cases he
        · exact ⟨p, List.mem_of_find?_eq_some hfind,
            List.find?_some hfind⟩
    · rintro ⟨p, hp, hinv⟩
      rw [hcreate]
      have hlen :
          (normalizePatterns files ++ normalizePatterns excludedFiles).length
            ≠ 0 := by
        intro h0
        rw [List.length_eq_zero] at h0
        rw [h0] at hp
        cases hp
      rw [if_neg hlen]
      have hsome : ((normalizePatterns files
          ++ normalizePatterns excludedFiles).find?
          isInvalidOverridePattern).isSome := by
        rw [List.find?_isSome]
        exact ⟨p, hp, hinv⟩
      rcases hfind : (normalizePatterns files
          ++ normalizePatterns excludedFiles).find?
          isInvalidOverridePattern with _ | q
      · rw [hfind] at hsome; cases hsome
      · simp only [hfind]
        exact ⟨_, rfl⟩
  · intro h
    rw [hcreate]
    simp [h]
  · intro hne hall
    rw [hcreate]
    have hlen :
        (normalizePatterns files ++ normalizePatterns excludedFiles).length
          ≠ 0 := by
      intro h0
      exact hne (List.length_eq_zero.mp h0)
    have hfind : (normalizePatterns files
        ++ normalizePatterns excludedFiles).find?
        isInvalidOverridePattern = none := by
      rw [List.find?_eq_none]
      intro p hp
      simp [hall p hp]
    rw [if_neg hlen]
    simp only [hfind]

/-- Witness for the amended C6 at concrete inputs. -/
theorem override_create_c6_amended_witness :
    OverrideTester.create (.list ["*.ts"]) (.undef) "/base"
      = .ok (some
          { patterns :=
              [{ includes := some [{ pattern := "*.ts" }],
                 excludes := none }],
            basePath := "/base" }) := by
  have h := (override_create_c6_amended (.list ["*.ts"]) (.undef) "/base").2.2
    (by decide) (by decide)
  exact h

/-- C4: `extractConfig` called with a non-string or non-absolute argument
fails before touching anything: the error message embeds the (coerced)
offending value, and the returned state — in particular the cache — is the
unchanged input state. -/
theorem extract_arg_validation_c4 (req : String → JSVal) (ruleFuel : Nat)
    (validate : ConfigArrayElement → (String → Option JSVal) →
      (String → Option JSVal) → Except JSError Unit)
    (st : ConfigArrayState) (v : JSVal)
    (h : (!jsIsString v || !isAbsolutePath (jsAsString v)) = true) :
    extractConfig req ruleFuel validate st v =
      (.error
        { message := "\x27filePath\x27 should be an absolute path, but got "
            ++ jsToDisplay v ++ "." },
       st)
    ∧ ∃ pre post,
        "\x27filePath\x27 should be an absolute path, but got "
            ++ jsToDisplay v ++ "."
          = pre ++ jsToDisplay v ++ post := by
  constructor
  · unfold extractConfig
    rw [if_pos h]
  · exact ⟨"\x27filePath\x27 should be an absolute path, but got ", ".", by
      rw [String.append_assoc]⟩

/-- Witness for C4 at the number `100` (a non-string argument). -/
theorem extract_arg_validation_c4_witness :
    extractConfig (fun _ => .undef) 0 (fun _ _ _ => .ok ())
        (initConfigArray []) (.num 100) =
      (.error
        { message :=
            "\x27filePath\x27 should be an absolute path, but got 100." },
       initConfigArray []) := by
  have h := (extract_arg_validation_c4 (fun _ => .undef) 0 (fun _ _ _ => .ok ())
    (initConfigArray []) (.num 100) (by decide)).1
  exact h

theorem getMatchedIndicesGo_eq_nil (elements : List ConfigArrayElement)
    (f : String)
    (h : ∀ e ∈ elements, ∃ t, e.criteria = some t ∧ t f = false) :
    ∀ n, n ≤ elements.length → getMatchedIndicesGo elements f n = [] := by
  intro n
  induction n with
  | zero => intro _; rfl
  | succ i ih =>
      intro hn
      have hi : i < elements.length := hn
      have hmem : elements.getD i {} ∈ elements := by
        rw [List.getD_eq_getElem elements {} hi]
        exact List.getElem_mem hi
      rcases h _ hmem with ⟨t, hc, hf⟩
      have hmatch : elementMatches (elements.getD i {}) f = false := by
        unfold elementMatches
        rw [hc]
        exact hf
      have hmatch' :
          elementMatches (elements[i]?.getD ({} : ConfigArrayElement)) f
            = false := by
        rw [← List.getD_eq_getElem?_getD]
        exact hmatch
      simp [getMatchedIndicesGo, hmatch', ih (le_of_lt hi)]

/-- C9: when no element matches the (absolute) file — in particular on the
empty array — extraction succeeds with the freshly constructed empty
config: empty `env`, `globals`, `parserOptions`, `settings`, `plugins` and
`rules`, and `null` parser and processor.  No error is raised whatever the
(non-matching) elements contain. -/
theorem empty_match_extraction_c9 (req : String → JSVal) (ruleFuel : Nat)
    (validate : ConfigArrayElement → (String → Option JSVal) →
      (String → Option JSVal) → Except JSError Unit)
    (elements : List ConfigArrayElement) (f : String)
    (habs : isAbsolutePath f = true)
    (h : ∀ e ∈ elements, ∃ t, e.criteria = some t ∧ t f = false) :
    extractConfig req ruleFuel validate (initConfigArray elements) (.str f) =
      (.ok newExtractedConfig,
       { elements := elements,
         cache := [("", newExtractedConfig)],
         slots := {} })
    ∧ newExtractedConfig.env = .obj []
    ∧ newExtractedConfig.globals = .obj []
    ∧ newExtractedConfig.parserOptions = .obj []
    ∧ newExtractedConfig.settings = .obj []
    ∧ newExtractedConfig.plugins = []
    ∧ newExtractedConfig.rules = .obj []
    ∧ newExtractedConfig.parser = none
    ∧ newExtractedConfig.processor = none := by
  have hidx : getMatchedIndices elements f = [] :=
    getMatchedIndicesGo_eq_nil elements f h elements.length le_rfl
  refine ⟨?_, rfl, rfl, rfl, rfl, rfl, rfl, rfl, rfl⟩
  have hcond : (!jsIsString (JSVal.str f)
      || !isAbsolutePath (jsAsString (JSVal.str f))) = false := by
    simp [jsIsString, jsAsString, habs]
  unfold extractConfig
  rw [hcond]
  simp only [Bool.false_eq_true, if_false, initConfigArray]
  simp only [jsAsString, hidx]
  rfl

theorem alistGet_append_of_none {α : Type} (m : List (String × α))
    (k : String) (v : α) (h : alistGet m k = none) :
    alistGet (m ++ [(k, v)]) k = some v := by
  unfold alistGet at h ⊢
  rw [List.find?_append]
  rcases hfind : m.find? (fun p => p.1 = k) with _ | p
  · rw [hfind]
    simp [List.find?]
  · rw [hfind] at h; cases h

theorem extractConfig_str (req : String → JSVal) (ruleFuel : Nat)
    (validate : ConfigArrayElement → (String → Option JSVal) →
      (String → Option JSVal) → Except JSError Unit)
    (st : ConfigArrayState) (f : String) (habs : isAbsolutePath f = true) :
    extractConfig req ruleFuel validate st (.str f) =
      (match alistGet st.cache
          (joinIndices (getMatchedIndices st.elements f)) with
       | some config => (.ok config, st)
       | none =>
          match createConfig req ruleFuel validate st.elements
              (getMatchedIndices st.elements f) st.slots with
          | (.error e, slots') => (.error e, { st with slots := slots' })
          | (.ok config, slots') =>
              (.ok config,
               { st with
                   cache := st.cache
                     ++ [(joinIndices (getMatchedIndices st.elements f),
                          config)],
                   slots := slots' })) := by
  have hcond : (!jsIsString (JSVal.str f)
      || !isAbsolutePath (jsAsString (JSVal.str f))) = false := by
    simp [jsIsString, jsAsString, habs]
  unfold extractConfig
  rw [hcond]
  simp only [Bool.false_eq_true, if_false]
  rfl

/-- C3: two `extractConfig` calls whose matched-index sequences coincide
are served from one cache entry, keyed by the comma-joined index string:
after the first call succeeds, the second call (with any absolute path
selecting the same indices) returns the very value stored in the cache and
leaves the state untouched. -/
theorem extract_cache_identity_c3 (req : String → JSVal) (ruleFuel : Nat)
    (validate : ConfigArrayElement → (String → Option JSVal) →
      (String → Option JSVal) → Except JSError Unit)
    (st : ConfigArrayState) (f1 f2 : String) (config : ExtractedConfig)
    (st1 : ConfigArrayState)
    (h1 : isAbsolutePath f1 = true) (h2 : isAbsolutePath f2 = true)
    (hidx : getMatchedIndices st.elements f1
      = getMatchedIndices st.elements f2)
    (hcall : extractConfig req ruleFuel validate st (.str f1)
      = (.ok config, st1)) :
    extractConfig req ruleFuel validate st1 (.str f2) = (.ok config, st1)
    ∧ alistGet st1.cache
        (joinIndices (getMatchedIndices st.elements f1)) = some config := by
  rw [extractConfig_str req ruleFuel validate st f1 h1] at hcall
  rcases halist : alistGet st.cache
      (joinIndices (getMatchedIndices st.elements f1)) with _ | c
  · rw [halist] at hcall
    rcases hcc : createConfig req ruleFuel validate st.elements
        (getMatchedIndices st.elements f1) st.slots with ⟨res, slots'⟩
    rw [hcc] at hcall
    cases res with
    | error e => cases hcall
    | ok cfg =>
        have heq := congrArg Prod.fst hcall
        have hst := congrArg Prod.snd hcall
        simp only at heq hst
        cases heq
        have hel : st1.elements = st.elements := by rw [← hst]
        have hget : alistGet st1.cache
            (joinIndices (getMatchedIndices st.elements f1)) = some config := by
          rw [← hst]
          exact alistGet_append_of_none _ _ _ halist
        refine ⟨?_, hget⟩
        rw [extractConfig_str req ruleFuel validate st1 f2 h2, hel, ← hidx,
          hget]
  · rw [halist] at hcall
    have heq := congrArg Prod.fst hcall
    have hst := congrArg Prod.snd hcall
    simp only at heq hst
    cases heq
    have hel : st1.elements = st.elements := by rw [← hst]
    have hget : alistGet st1.cache
        (joinIndices (getMatchedIndices st.elements f1)) = some config := by
      rw [← hst]
      exact halist
    refine ⟨?_, hget⟩
    rw [extractConfig_str req ruleFuel validate st1 f2 h2, hel, ← hidx, hget,
      ← hst]

/-- Witness for C3 at a concrete input (empty array, two different
absolute paths, both matching no element). -/
theorem extract_cache_identity_c3_witness :
    extractConfig (fun _ => .undef) 0 (fun _ _ _ => .ok ())
        { elements := [], cache := [("", newExtractedConfig)], slots := {} }
        (.str "/b.js")
      = (.ok newExtractedConfig,
         { elements := [], cache := [("", newExtractedConfig)], slots := {} })
    ∧ alistGet
        (ConfigArrayState.cache
          { elements := [], cache := [("", newExtractedConfig)],
            slots := {} })
        (joinIndices (getMatchedIndices [] "/a.js"))
      = some newExtractedConfig := by
  have h := extract_cache_identity_c3 (fun _ => .undef) 0 (fun _ _ _ => .ok ())
    (initConfigArray []) "/a.js" "/b.js" newExtractedConfig
    { elements := [], cache := [("", newExtractedConfig)], slots := {} }
    (by decide) (by decide) rfl (by rfl)
  exact h

theorem jsSetKey_obj_vals (fs : List (String × JSVal)) (k : String)
    (v : JSVal) :
    ∃ fs', jsSetKey (.obj fs) k v = .obj fs'
      ∧ ∀ p ∈ fs', p ∈ fs ∨ p.2 = v := by
  simp only [jsSetKey]
  by_cases hfind : ((fs.find? (fun p => p.1 = k)).isSome : Prop)
  · refine ⟨_, by rw [if_pos hfind], ?_⟩
    intro p hp
    rcases List.mem_map.mp hp with ⟨q, hq, hpq⟩
    by_cases hqk : q.1 = k
    · right
      rw [← hpq]
      simp [hqk]
    · left
      rw [← hpq]
      simp [hqk]
      exact hq
  · refine ⟨_, by rw [if_neg hfind], ?_⟩
    intro p hp
    rcases List.mem_append.mp hp with h | h
    · exact Or.inl h
    · right
      rcases List.mem_singleton.mp h with rfl
      rfl

theorem mergeRulesStep_of_undef (target : JSVal) (k : String)
    (srcDef : JSVal) (h : jsGetKey target k = .undef) :
    mergeRulesStep target k srcDef
      = jsSetKey target k
          (match srcDef with | .arr xs => .arr xs | sd => .arr [sd]) := by
  unfold mergeRulesStep
  rw [h]
  rcases srcDef <;> rfl

theorem mergeRulesStep_arr_arr (target : JSVal) (k : String)
    (txs sxs : List JSVal) (h : jsGetKey target k = .arr txs) :
    mergeRulesStep target k (.arr sxs)
      = if txs.length = 1 ∧ sxs.length ≥ 2 then
          jsSetKey target k (.arr (txs ++ sxs.drop 1))
        else target := by
  unfold mergeRulesStep
  rw [h]
  rfl

theorem mergeRulesStep_arr_nonarr (target : JSVal) (k : String)
    (txs : List JSVal) (srcDef : JSVal) (h : jsGetKey target k = .arr txs)
    (hs : srcDef.isArr = false) :
    mergeRulesStep target k srcDef = target := by
  unfold mergeRulesStep
  rw [h]
  rcases srcDef <;> first | rfl | cases hs

theorem mergeRulesStep_prim (target : JSVal) (k : String) (srcDef : JSVal)
    (hu : (jsGetKey target k).isUndef = false)
    (ha : (jsGetKey target k).isArr = false) :
    mergeRulesStep target k srcDef = target := by
  unfold mergeRulesStep
  rcases htgt : jsGetKey target k with _ | _ | b | n | str | t | txs | gs
  · rw [htgt] at hu
    exact absurd hu (by decide)
  · rcases srcDef <;> rfl
  · rcases srcDef <;> rfl
  · rcases srcDef <;> rfl
  · rcases srcDef <;> rfl
  · rcases srcDef <;> rfl
  · rw [htgt] at ha
    exact absurd ha (by simp [JSVal.isArr])
  · rcases srcDef <;> rfl

theorem mergeRulesStep_preserves (target : JSVal) (k : String)
    (srcDef : JSVal) (h : rulesObjAllArrays target) :
    rulesObjAllArrays (mergeRulesStep target k srcDef) := by
  rcases h with ⟨fs, rfl, hall⟩
  have hset : ∀ (v : JSVal) (xs : List JSVal), v = .arr xs →
      rulesObjAllArrays (jsSetKey (.obj fs) k v) := by
    rintro v xs rfl
    rcases jsSetKey_obj_vals fs k (.arr xs) with ⟨fs', heq, hsub⟩
    refine ⟨fs', heq, ?_⟩
    intro p hp
    rcases hsub p hp with hmem | hv
    · exact hall p hmem
    · exact ⟨xs, hv⟩
  rcases htgt : jsGetKey (.obj fs) k with _ | _ | b | n | str | t | txs | gs
  · rw [mergeRulesStep_of_undef _ _ _ htgt]
    rcases srcDef with _ | _ | b' | n' | s' | t' | sxs | gs' <;>
      exact hset _ _ rfl
  all_goals
    try
      (rw [mergeRulesStep_prim _ _ srcDef (by rw [htgt]; rfl)
        (by rw [htgt]; rfl)]
       exact ⟨fs, rfl, hall⟩)
  rcases hsrc : srcDef with _ | _ | b' | n' | s' | t' | sxs | gs'
  case arr.arr =>
    rw [mergeRulesStep_arr_arr _ _ _ _ htgt]
    by_cases hc : txs.length = 1 ∧ sxs.length ≥ 2
    · rw [if_pos hc]
      exact hset _ _ rfl
    · rw [if_neg hc]
      exact ⟨fs, rfl, hall⟩
  all_goals
    rw [mergeRulesStep_arr_nonarr _ _ _ _ htgt (by rfl)]
    exact ⟨fs, rfl, hall⟩

theorem mergeRules_preserves (source : JSVal) :
    ∀ target, rulesObjAllArrays target →
      rulesObjAllArrays (mergeRules target source) := by
  intro target h
  unfold mergeRules
  by_cases hs : (isNonNullObject source : Prop)
  · rw [if_pos hs]
    generalize jsEntries source = entries
    induction entries generalizing target with
    | nil => exact h
    | cons p rest ih =>
        simp only [List.foldl_cons]
        exact ih _ (mergeRulesStep_preserves target p.1 p.2 h)
  · rw [if_neg hs]
    exact h

theorem createConfigAfterParser_rules (req : String → JSVal) (ruleFuel : Nat)
    (config : ExtractedConfig) (slots : Slots) (e : ConfigArrayElement)
    (config' : ExtractedConfig) (slots' : Slots)
    (h : createConfigAfterParser req ruleFuel config slots e
      = (.ok config', slots')) :
    config'.rules = mergeRules config.rules e.rules := by
  unfold createConfigAfterParser at h
  by_cases hp : (!optStrTruthy config.processor
      && optStrTruthy e.processor) = true
  · rw [if_pos hp] at h
    dsimp only at h
    rcases hmp : mergePluginsLoop req ruleFuel (e.plugins.getD [])
        config.plugins slots with ⟨res, s2⟩
    rw [hmp] at h
    cases res with
    | error err => cases h
    | ok plugins' =>
        have h1 := congrArg Prod.fst h
        simp only at h1
        cases h1
        rfl
  · rw [if_neg hp] at h
    dsimp only at h
    rcases hmp : mergePluginsLoop req ruleFuel (e.plugins.getD [])
        config.plugins slots with ⟨res, s2⟩
    rw [hmp] at h
    cases res with
    | error err => cases h
    | ok plugins' =>
        have h1 := congrArg Prod.fst h
        simp only at h1
        cases h1
        rfl

theorem createConfigStep_rules (req : String → JSVal) (ruleFuel : Nat)
    (config : ExtractedConfig) (slots : Slots) (e : ConfigArrayElement)
    (config' : ExtractedConfig) (slots' : Slots)
    (h : createConfigStep req ruleFuel config slots e
      = (.ok config', slots')) :
    config'.rules = mergeRules config.rules e.rules := by
  unfold createConfigStep at h
  split at h
  · split at h
    · cases h
    · have h2 := createConfigAfterParser_rules _ _ _ _ _ _ _ h
      exact h2
  · exact createConfigAfterParser_rules _ _ _ _ _ _ _ h

theorem createConfigLoop_rules (req : String → JSVal) (ruleFuel : Nat)
    (elements : List ConfigArrayElement) :
    ∀ (indices : List Nat) (config : ExtractedConfig) (slots : Slots)
      (config' : ExtractedConfig) (slots' : Slots),
      createConfigLoop req ruleFuel elements indices config slots
        = (.ok config', slots') →
      rulesObjAllArrays config.rules → rulesObjAllArrays config'.rules := by
  intro indices
  induction indices with
  | nil =>
      intro config slots config' slots' h hinv
      unfold createConfigLoop at h
      have := congrArg Prod.fst h
      simp only at this
      cases this
      exact hinv
  | cons i rest ih =>
      intro config slots config' slots' h hinv
      unfold createConfigLoop at h
      rcases hstep : createConfigStep req ruleFuel config slots
          (elements.getD i {}) with ⟨res, s2⟩
      rw [hstep] at h
      cases res with
      | error err => cases h
      | ok config2 =>
          have h2 : rulesObjAllArrays config2.rules := by
            rw [createConfigStep_rules req ruleFuel config slots
              (elements.getD i {}) config2 s2 hstep]
            exact mergeRules_preserves _ _ hinv
          exact ih config2 s2 config' slots' h h2

/-- C2: the rule merge of extraction.  A ruleId not yet present is stored
in array form (an array source is cloned, a bare severity is wrapped into
a singleton); a present entry with exactly one element absorbs the options
of an array source of length at least 2; in every other case the present
entry is left unchanged.  Consequently every rules value of a successfully
extracted config is an array. -/
theorem rule_merge_c2 :
    (∀ target k srcDef xs, jsGetKey target k = .undef → srcDef = .arr xs →
      mergeRulesStep target k srcDef = jsSetKey target k (.arr xs))
    ∧ (∀ target k srcDef, jsGetKey target k = .undef → srcDef.isArr = false →
      mergeRulesStep target k srcDef = jsSetKey target k (.arr [srcDef]))
    ∧ (∀ target k txs sxs, jsGetKey target k = .arr txs → txs.length = 1 →
      sxs.length ≥ 2 →
      mergeRulesStep target k (.arr sxs)
        = jsSetKey target k (.arr (txs ++ sxs.drop 1)))
    ∧ (∀ target k txs srcDef, jsGetKey target k = .arr txs →
      ¬(txs.length = 1 ∧ ∃ sxs, srcDef = .arr sxs ∧ sxs.length ≥ 2) →
      mergeRulesStep target k srcDef = target)
    ∧ (∀ (req : String → JSVal) (ruleFuel : Nat)
        (validate : ConfigArrayElement → (String → Option JSVal) →
          (String → Option JSVal) → Except JSError Unit)
        (elements : List ConfigArrayElement) (indices : List Nat)
        (slots : Slots) (config : ExtractedConfig) (slots' : Slots),
      createConfig req ruleFuel validate elements indices slots
        = (.ok config, slots') →
      rulesObjAllArrays config.rules) := by
  refine ⟨?_, ?_, ?_, ?_, ?_⟩
  · rintro target k srcDef xs hu rfl
    rw [mergeRulesStep_of_undef _ _ _ hu]
  · intro target k srcDef hu hna
    rw [mergeRulesStep_of_undef _ _ _ hu]
    rcases srcDef with _ | _ | b | n | s | t | xs | gs
    · rfl
    · rfl
    · rfl
    · rfl
    · rfl
    · rfl
    · cases hna
    · rfl
  · intro target k txs sxs htgt h1 h2
    rw [mergeRulesStep_arr_arr _ _ _ _ htgt, if_pos ⟨h1, h2⟩]
  · intro target k txs srcDef htgt hno
    rcases srcDef with _ | _ | b | n | s | t | sxs | gs
    · exact mergeRulesStep_arr_nonarr _ _ _ _ htgt rfl
    · exact mergeRulesStep_arr_nonarr _ _ _ _ htgt rfl
    · exact mergeRulesStep_arr_nonarr _ _ _ _ htgt rfl
    · exact mergeRulesStep_arr_nonarr _ _ _ _ htgt rfl
    · exact mergeRulesStep_arr_nonarr _ _ _ _ htgt rfl
    · exact mergeRulesStep_arr_nonarr _ _ _ _ htgt rfl
    · rw [mergeRulesStep_arr_arr _ _ _ _ htgt,
        if_neg (fun hc => hno ⟨hc.1, sxs, rfl, hc.2⟩)]
    · exact mergeRulesStep_arr_nonarr _ _ _ _ htgt rfl
  · intro req ruleFuel validate elements indices slots config slots' h
    unfold createConfig at h
    split at h
    · cases h
    · next config2 s2 heq =>
        split at h
        · cases h
        · have h1 := congrArg Prod.fst h
          simp only at h1
          cases h1
          exact createConfigLoop_rules req ruleFuel elements indices
            newExtractedConfig slots config s2 heq
            ⟨[], rfl, by intro p hp; cases hp⟩

/-- Witness for C2 at concrete inputs. -/
theorem rule_merge_c2_witness :
    mergeRulesStep (.obj []) "semi" (.num 2)
      = jsSetKey (.obj []) "semi" (.arr [.num 2])
    ∧ rulesObjAllArrays
        (ExtractedConfig.rules
          { newExtractedConfig with
              rules := .obj [("semi", .arr [.num 2])] }) := by
  constructor
  · exact rule_merge_c2.2.1 (.obj []) "semi" (.num 2) rfl rfl
  · have hrun : createConfig (fun _ => .undef) 0 (fun _ _ _ => .ok ())
        [{ rules := .obj [("semi", .num 2)] }] [0] {}
        = (.ok { newExtractedConfig with
                   rules := .obj [("semi", .arr [.num 2])] }, {}) := by
      unfold createConfig createConfigLoop createConfigStep
        createConfigAfterParser validateLoop
      simp [mergePluginsLoop, mergeRules, mergeRulesStep, jsEntries,
        jsGetKey, jsSetKey, assignWithoutOverwrite, isNonNullObject,
        newExtractedConfig, optStrTruthy, List.find?]
      rfl
    exact rule_merge_c2.2.2.2.2 (fun _ => .undef) 0 (fun _ _ _ => .ok ())
      [{ rules := .obj [("semi", .num 2)] }] [0] {}
      { newExtractedConfig with rules := .obj [("semi", .arr [.num 2])] }
      {} hrun

theorem assignWithoutOverwrite_undef (target : JSVal) :
    assignWithoutOverwrite target .undef = target := by
  unfold assignWithoutOverwrite
  rfl

theorem mergeRules_undef (target : JSVal) :
    mergeRules target .undef = target := rfl

theorem createConfigStep_parser_ok (req : String → JSVal) (ruleFuel : Nat)
    (config : ExtractedConfig) (slots : Slots) (dep : ConfigDependency)
    (hcp : config.parser = none) (hde : dep.error = none) :
    createConfigStep req ruleFuel config slots { parser := some dep }
      = (.ok { config with parser := some dep }, slots) := by
  rcases config with ⟨cenv, cglob, cparser, cpo, cplug, cproc, crules, cset⟩
  cases hcp
  rcases dep with ⟨ddef, derr, dfp, did, dim, dip⟩
  cases hde
  unfold createConfigStep createConfigAfterParser
  simp [assignWithoutOverwrite_undef, mergeRules_undef, mergePluginsLoop,
    optStrTruthy]

theorem createConfigStep_parser_skip (req : String → JSVal) (ruleFuel : Nat)
    (config : ExtractedConfig) (slots : Slots) (p dep : ConfigDependency)
    (hcp : config.parser = some p) :
    createConfigStep req ruleFuel config slots { parser := some dep }
      = (.ok config, slots) := by
  rcases config with ⟨cenv, cglob, cparser, cpo, cplug, cproc, crules, cset⟩
  cases hcp
  unfold createConfigStep createConfigAfterParser
  simp [assignWithoutOverwrite_undef, mergeRules_undef, mergePluginsLoop,
    optStrTruthy]

theorem createConfigLoop_nil (req : String → JSVal) (ruleFuel : Nat)
    (elements : List ConfigArrayElement) (config : ExtractedConfig)
    (slots : Slots) :
    createConfigLoop req ruleFuel elements [] config slots
      = (.ok config, slots) := rfl

theorem createConfigLoop_cons_ok (req : String → JSVal) (ruleFuel : Nat)
    (elements : List ConfigArrayElement) (i : Nat) (rest : List Nat)
    (config : ExtractedConfig) (slots : Slots) (config2 : ExtractedConfig)
    (slots2 : Slots)
    (h : createConfigStep req ruleFuel config slots (elements.getD i {})
      = (.ok config2, slots2)) :
    createConfigLoop req ruleFuel elements (i :: rest) config slots
      = createConfigLoop req ruleFuel elements rest config2 slots2 := by
  have heq : createConfigLoop req ruleFuel elements (i :: rest) config slots
      = (match createConfigStep req ruleFuel config slots
            (elements.getD i {}) with
         | (.error e, slots') => (.error e, slots')
         | (.ok config', slots') =>
             createConfigLoop req ruleFuel elements rest config' slots') :=
    rfl
  rw [heq, h]

theorem createConfigLoop_cons_error (req : String → JSVal) (ruleFuel : Nat)
    (elements : List ConfigArrayElement) (i : Nat) (rest : List Nat)
    (config : ExtractedConfig) (slots : Slots) (e : JSError)
    (slots2 : Slots)
    (h : createConfigStep req ruleFuel config slots (elements.getD i {})
      = (.error e, slots2)) :
    createConfigLoop req ruleFuel elements (i :: rest) config slots
      = (.error e, slots2) := by
  have heq : createConfigLoop req ruleFuel elements (i :: rest) config slots
      = (match createConfigStep req ruleFuel config slots
            (elements.getD i {}) with
         | (.error e, slots') => (.error e, slots')
         | (.ok config', slots') =>
             createConfigLoop req ruleFuel elements rest config' slots') :=
    rfl
  rw [heq, h]

theorem validateLoop_cons_ok
    (validate : ConfigArrayElement → (String → Option JSVal) →
      (String → Option JSVal) → Except JSError Unit)
    (elements : List ConfigArrayElement) (slots : Slots) (i : Nat)
    (rest : List Nat)
    (h : validate (elements.getD i {})
        (fun id => alistGet slots.ruleMap id)
        (fun id => alistGet slots.envMap id) = .ok ()) :
    validateLoop validate elements slots (i :: rest)
      = validateLoop validate elements slots rest := by
  have heq : validateLoop validate elements slots (i :: rest)
      = (match validate (elements.getD i {})
            (fun id => alistGet slots.ruleMap id)
            (fun id => alistGet slots.envMap id) with
         | .error e => .error e
         | .ok _ => validateLoop validate elements slots rest) := rfl
  rw [heq, h]

theorem createConfig_of_loop_ok (req : String → JSVal) (ruleFuel : Nat)
    (validate : ConfigArrayElement → (String → Option JSVal) →
      (String → Option JSVal) → Except JSError Unit)
    (elements : List ConfigArrayElement) (indices : List Nat)
    (slots : Slots) (config : ExtractedConfig) (slots' : Slots)
    (hloop : createConfigLoop req ruleFuel elements indices
      newExtractedConfig slots = (.ok config, slots'))
    (hval : validateLoop validate elements slots' indices = .ok ()) :
    createConfig req ruleFuel validate elements indices slots
      = (.ok config, slots') := by
  unfold createConfig
  rw [hloop]
  show (match validateLoop validate elements slots' indices with
        | Except.error e =>
            ((Except.error e : Except JSError ExtractedConfig), slots')
        | Except.ok _ => (Except.ok config, slots'))
      = (Except.ok config, slots')
  rw [hval]

theorem createConfig_of_loop_error (req : String → JSVal) (ruleFuel : Nat)
    (validate : ConfigArrayElement → (String → Option JSVal) →
      (String → Option JSVal) → Except JSError Unit)
    (elements : List ConfigArrayElement) (indices : List Nat)
    (slots : Slots) (e : JSError) (slots' : Slots)
    (hloop : createConfigLoop req ruleFuel elements indices
      newExtractedConfig slots = (.error e, slots')) :
    createConfig req ruleFuel validate elements indices slots
      = (.error e, slots') := by
  unfold createConfig
  rw [hloop]

/-- C1: parser-error propagation during the fold (highest precedence
first).  (1) An errored parser examined while no parser has been adopted
throws that error at once, leaving the slots untouched.  (2) Once a parser
has been adopted, the merge iteration is blind to the element's parser
field — an errored parser there is ignored.  (3) With an adopted
higher-precedence parser, extraction over the two-element array succeeds
with that parser.  (4) A ConfigArray whose single element matches the
(absolute) file and carries an errored parser raises that error, leaving
the state unchanged. -/
theorem parser_error_propagation_c1 :
    (∀ (req : String → JSVal) (ruleFuel : Nat) (config : ExtractedConfig)
        (slots : Slots) (e : ConfigArrayElement) (dep : ConfigDependency)
        (err : JSError),
      config.parser = none → e.parser = some dep → dep.error = some err →
      createConfigStep req ruleFuel config slots e = (.error err, slots))
    ∧ (∀ (req : String → JSVal) (ruleFuel : Nat) (config : ExtractedConfig)
        (slots : Slots) (e : ConfigArrayElement) (p : ConfigDependency),
      config.parser = some p →
      createConfigStep req ruleFuel config slots e
        = createConfigStep req ruleFuel config slots
            { e with parser := none })
    ∧ (∀ (req : String → JSVal) (ruleFuel : Nat)
        (validate : ConfigArrayElement → (String → Option JSVal) →
          (String → Option JSVal) → Except JSError Unit)
        (depE depP : ConfigDependency) (err : JSError) (f : String),
      depE.error = some err → depP.error = none →
      isAbsolutePath f = true →
      (∀ e lookupR lookupE, validate e lookupR lookupE = .ok ()) →
      ∃ st', extractConfig req ruleFuel validate
          (initConfigArray [{ parser := some depE }, { parser := some depP }])
          (.str f)
        = (.ok { newExtractedConfig with parser := some depP }, st'))
    ∧ (∀ (req : String → JSVal) (ruleFuel : Nat)
        (validate : ConfigArrayElement → (String → Option JSVal) →
          (String → Option JSVal) → Except JSError Unit)
        (e : ConfigArrayElement) (dep : ConfigDependency) (err : JSError)
        (f : String),
      e.parser = some dep → dep.error = some err →
      isAbsolutePath f = true → elementMatches e f = true →
      extractConfig req ruleFuel validate (initConfigArray [e]) (.str f)
        = (.error err, initConfigArray [e])) := by
  have hthrow : ∀ (req : String → JSVal) (ruleFuel : Nat)
      (config : ExtractedConfig) (slots : Slots) (e : ConfigArrayElement)
      (dep : ConfigDependency) (err : JSError),
      config.parser = none → e.parser = some dep → dep.error = some err →
      createConfigStep req ruleFuel config slots e = (.error err, slots) := by
    intro req ruleFuel config slots e dep err hcp hep hde
    rcases config with ⟨cenv, cglob, cparser, cpo, cplug, cproc, crules, cset⟩
    cases hcp
    rcases e with ⟨n, fp, cr, eenv, eglob, eparser, epo, eplug, eproc, eroot,
      erules, eset⟩
    cases hep
    rcases dep with ⟨ddef, derr, dfp, did, dim, dip⟩
    cases hde
    rfl
  refine ⟨hthrow, ?_, ?_, ?_⟩
  · intro req ruleFuel config slots e p hcp
    rcases config with ⟨cenv, cglob, cparser, cpo, cplug, cproc, crules, cset⟩
    cases hcp
    rcases e with ⟨n, fp, cr, eenv, eglob, eparser, epo, eplug, eproc, eroot,
      erules, eset⟩
    rfl
  · intro req ruleFuel validate depE depP err f herrE herrP habs hval
    have hstep1 : createConfigStep req ruleFuel newExtractedConfig {}
        (List.getD
          [({ parser := some depE } : ConfigArrayElement),
           { parser := some depP }] 1 {})
        = (.ok { newExtractedConfig with parser := some depP }, {}) :=
      createConfigStep_parser_ok req ruleFuel newExtractedConfig {} depP rfl
        herrP
    have hstep0 : createConfigStep req ruleFuel
        { newExtractedConfig with parser := some depP } {}
        (List.getD
          [({ parser := some depE } : ConfigArrayElement),
           { parser := some depP }] 0 {})
        = (.ok { newExtractedConfig with parser := some depP }, {}) :=
      createConfigStep_parser_skip req ruleFuel
        { newExtractedConfig with parser := some depP } {} depP depE rfl
    have hloop : createConfigLoop req ruleFuel
        [{ parser := some depE }, { parser := some depP }] [1, 0]
        newExtractedConfig {}
        = (.ok { newExtractedConfig with parser := some depP }, {}) := by
      rw [createConfigLoop_cons_ok _ _ _ _ _ _ _ _ _ hstep1,
        createConfigLoop_cons_ok _ _ _ _ _ _ _ _ _ hstep0,
        createConfigLoop_nil]
    have hvloop : validateLoop validate
        [{ parser := some depE }, { parser := some depP }] {} [1, 0]
        = .ok () := by
      rw [validateLoop_cons_ok _ _ _ _ _ (hval _ _ _),
        validateLoop_cons_ok _ _ _ _ _ (hval _ _ _)]
      rfl
    have hcrt : createConfig req ruleFuel validate
        [{ parser := some depE }, { parser := some depP }] [1, 0] {}
        = (.ok { newExtractedConfig with parser := some depP }, {}) :=
      createConfig_of_loop_ok _ _ _ _ _ _ _ _ hloop hvloop
    refine ⟨{ elements := [{ parser := some depE }, { parser := some depP }],
              cache := [("1,0",
                { newExtractedConfig with parser := some depP })],
              slots := {} }, ?_⟩
    have hcond : (!jsIsString (JSVal.str f)
        || !isAbsolutePath (jsAsString (JSVal.str f))) = false := by
      simp [jsIsString, jsAsString, habs]
    unfold extractConfig
    rw [hcond]
    simp only [Bool.false_eq_true, if_false]
    have helems : (initConfigArray
        [({ parser := some depE } : ConfigArrayElement),
         { parser := some depP }]).elements
        = [{ parser := some depE }, { parser := some depP }] := rfl
    have hslots : (initConfigArray
        [({ parser := some depE } : ConfigArrayElement),
         { parser := some depP }]).slots = {} := rfl
    rw [helems]
    simp only [jsAsString]
    have hidx2 : getMatchedIndices
        [({ parser := some depE } : ConfigArrayElement),
         { parser := some depP }] f = [1, 0] := rfl
    rw [hidx2, hslots, hcrt]
    rfl
  · intro req ruleFuel validate e dep err f hep hde habs hmatch
    have hstep : createConfigStep req ruleFuel newExtractedConfig {}
        (List.getD [e] 0 {}) = (.error err, {}) := by
      have hget0 : List.getD [e] 0 {} = e := rfl
      rw [hget0]
      exact hthrow req ruleFuel newExtractedConfig {} e dep err rfl hep hde
    have hcrt : createConfig req ruleFuel validate [e] [0] {}
        = (.error err, {}) :=
      createConfig_of_loop_error _ _ _ _ _ _ _ _
        (createConfigLoop_cons_error _ _ _ _ _ _ _ _ _ hstep)
    have hidx : getMatchedIndices [e] f = [0] := by
      have h1 : getMatchedIndices [e] f
          = if elementMatches (List.getD [e] 0 {}) f then [0] else [] := rfl
      have hget0 : List.getD [e] 0 {} = e := rfl
      rw [h1, hget0, hmatch]
      rfl
    have hcond : (!jsIsString (JSVal.str f)
        || !isAbsolutePath (jsAsString (JSVal.str f))) = false := by
      simp [jsIsString, jsAsString, habs]
    unfold extractConfig
    rw [hcond]
    simp only [Bool.false_eq_true, if_false]
    have helems : (initConfigArray [e]).elements = [e] := rfl
    have hslots : (initConfigArray [e]).slots = {} := rfl
    rw [helems]
    simp only [jsAsString]
    rw [hidx, hslots, hcrt]
    rfl

/-- Witness for C1 at a concrete input. -/
theorem parser_error_propagation_c1_witness :
    createConfigStep (fun _ => .undef) 0 newExtractedConfig {}
        { parser := some
            { error := some { message := "Failed to load a parser." },
              id := "bad-parser", importerName := "cfg",
              importerPath := "/i" } }
      = (.error { message := "Failed to load a parser." }, {})
    ∧ extractConfig (fun _ => .undef) 0 (fun _ _ _ => .ok ())
        (initConfigArray
          [{ parser := some
              { error := some { message := "Failed to load a parser." },
                id := "bad-parser", importerName := "cfg",
                importerPath := "/i" } }])
        (.str "/a.js")
      = (.error { message := "Failed to load a parser." },
         initConfigArray
          [{ parser := some
              { error := some { message := "Failed to load a parser." },
                id := "bad-parser", importerName := "cfg",
                importerPath := "/i" } }]) := by
  constructor
  · exact parser_error_propagation_c1.1 (fun _ => .undef) 0
      newExtractedConfig {} _ _ _ rfl rfl rfl
  · exact parser_error_propagation_c1.2.2.2 (fun _ => .undef) 0
      (fun _ _ _ => .ok ()) _ _ _ "/a.js" rfl rfl (by decide) rfl

/-- Witness for C9 at a concrete input (one non-matching element). -/
theorem empty_match_extraction_c9_witness :
    extractConfig (fun _ => .undef) 0 (fun _ _ _ => .ok ())
        (initConfigArray [{ criteria := some (fun _ => false) }])
        (.str "/a.js")
      = (.ok newExtractedConfig,
         { elements := [{ criteria := some (fun _ => false) }],
           cache := [("", newExtractedConfig)],
           slots := {} }) := by
  have h := (empty_match_extraction_c9 (fun _ => .undef) 0
    (fun _ _ _ => .ok ()) [{ criteria := some (fun _ => false) }] "/a.js"
    (by decide)
    (by
      intro e he
      rcases List.mem_singleton.mp he with rfl
      exact ⟨fun _ => false, rfl, rfl⟩)).1
  exact h

theorem hSet_length (s : Store) (r : Nat) (k : String) (v : HVal) :
    (hSet s r k v).length = s.length := by
  unfold hSet
  rcases h : s[r]? with _ | o
  · rfl
  · simp

theorem hSet_get_ne (s : Store) (r : Nat) (k : String) (v : HVal)
    (r' : Nat) (h : r' ≠ r) : (hSet s r k v)[r']? = s[r']? := by
  unfold hSet
  rcases ho : s[r]? with _ | o
  · rfl
  · rw [List.getElem?_set_ne (fun he => h he.symm)]

theorem append_get_lt (s : Store) (l : Store) (r : Nat) (h : r < s.length) :
    (s ++ l)[r]? = s[r]? := by
  rw [List.getElem?_append]
  rw [if_pos h]

theorem append_singleton_get_ne (s : Store) (o : HObj) (r : Nat)
    (h : r ≠ s.length) : (s ++ [o])[r]? = s[r]? := by
  by_cases hlt : r < s.length
  · exact append_get_lt s [o] r hlt
  · have hge : s.length < r := by omega
    rw [List.getElem?_eq_none (by simp; omega), List.getElem?_eq_none (by omega)]

theorem append_singleton_get_self (s : Store) (o : HObj) :
    (s ++ [o])[s.length]? = some o := by
  rw [List.getElem?_append_right le_rfl]
  simp

theorem storeVals_congr (s s' : Store) (r : Nat) (h : s'[r]? = s[r]?) :
    storeVals s' r = storeVals s r := by
  unfold storeVals
  rw [h]

theorem hGetObj_mem (o : HObj) (k : String) (h : hGetObj o k ≠ .undef) :
    hGetObj o k ∈ objVals o := by
  rcases o with fs | xs
  · simp only [hGetObj] at h ⊢
    rcases hf : fs.find? (fun p => p.1 = k) with _ | p
    · rw [hf] at h; cases h rfl
    · rw [hf]
      exact List.mem_map.mpr ⟨p, List.mem_of_find?_eq_some hf, rfl⟩
  · simp only [hGetObj] at h ⊢
    rcases hn : k.toNat? with _ | i
    · rw [hn] at h
      cases h rfl
    · rw [hn] at h
      have h' : (if toString i = k then xs.getD i .undef else .undef)
          ≠ HVal.undef := h
      show (if toString i = k then xs.getD i .undef else .undef) ∈ xs
      by_cases hi : toString i = k
      · rw [if_pos hi] at h' ⊢
        by_cases hlt : i < xs.length
        · rw [List.getD_eq_getElem xs _ hlt]
          exact List.getElem_mem hlt
        · rw [List.getD_eq_getElem?_getD,
            List.getElem?_eq_none (by omega)] at h'
          cases h' rfl
      · rw [if_neg hi] at h'
        cases h' rfl

theorem hGet_mem_storeVals (s : Store) (r : Nat) (k : String)
    (h : hGet s r k ≠ .undef) : hGet s r k ∈ storeVals s r := by
  simp only [hGet] at h ⊢
  simp only [storeVals]
  rcases ho : s[r]? with _ | o
  · rw [ho] at h
    cases h rfl
  · rw [ho] at h
    have h' : hGetObj o k ≠ HVal.undef := h
    show hGetObj o k ∈ objVals o
    exact hGetObj_mem o k h'

theorem objVals_hSetObj_sub (o : HObj) (k : String) (v : HVal) :
    ∀ w ∈ objVals (hSetObj o k v), w ∈ objVals o ∨ w = v ∨ w = .undef := by
  intro w hw
  rcases o with fs | xs
  · simp only [hSetObj] at hw
    by_cases hfind : ((fs.find? (fun p => p.1 = k)).isSome : Prop)
    · rw [if_pos hfind] at hw
      simp only [objVals] at hw
      rcases List.mem_map.mp hw with ⟨p, hp, hpw⟩
      rcases List.mem_map.mp hp with ⟨q, hq, hqp⟩
      by_cases hqk : q.1 = k
      · right; left
        rw [← hpw, ← hqp]
        simp [hqk]
      · left
        rw [← hpw, ← hqp]
        simp [hqk]
        exact List.mem_map.mpr ⟨q, hq, rfl⟩
    · rw [if_neg hfind] at hw
      simp only [objVals] at hw
      rcases List.mem_map.mp hw with ⟨p, hp, hpw⟩
      rcases List.mem_append.mp hp with hl | hr
      · left
        exact List.mem_map.mpr ⟨p, hl, hpw⟩
      · right; left
        rcases List.mem_singleton.mp hr with rfl
        exact hpw.symm
  · simp only [hSetObj] at hw
    rcases hn : k.toNat? with _ | i
    · rw [hn] at hw
      exact Or.inl hw
    · rw [hn] at hw
      have hw2 : w ∈ objVals
          (if toString i = k then
            (if i < xs.length then HObj.arr (xs.set i v)
             else HObj.arr (xs ++ List.replicate (i - xs.length) .undef
               ++ [v]))
           else HObj.arr xs) := hw
      clear hw
      rename' hw2 => hw
      by_cases hi : toString i = k
      · rw [if_pos hi] at hw
        by_cases hlt : i < xs.length
        · rw [if_pos hlt] at hw
          simp only [objVals] at hw
          rcases List.mem_or_eq_of_mem_set hw with hmem | rfl
          · exact Or.inl hmem
          · exact Or.inr (Or.inl rfl)
        · rw [if_neg hlt] at hw
          simp only [objVals] at hw
          rcases List.mem_append.mp hw with hl | hr
          · rcases List.mem_append.mp hl with hll | hlr
            · exact Or.inl hll
            · right; right
              exact List.eq_of_mem_replicate hlr
          · right; left
            rcases List.mem_singleton.mp hr with rfl
            rfl
      · rw [if_neg hi] at hw
        exact Or.inl hw

theorem hSet_storeVals_sub (s : Store) (r : Nat) (k : String) (v : HVal)
    (r' : Nat) :
    ∀ w ∈ storeVals (hSet s r k v) r',
      w ∈ storeVals s r' ∨ w = v ∨ w = .undef := by
  intro w hw
  by_cases hr : r' = r
  · subst hr
    unfold hSet at hw
    rcases ho : s[r']? with _ | o
    · rw [ho] at hw
      exact Or.inl hw
    · rw [ho] at hw
      have hlt : r' < s.length := (List.getElem?_eq_some_iff.mp ho).1
      unfold storeVals at hw
      rw [List.getElem?_set_self' ] at hw
      · simp only [ho] at hw
        simp only [Option.map_some] at hw
        have : w ∈ objVals (hSetObj o k v) := hw
        rcases objVals_hSetObj_sub o k v w this with hmem | hv
        · left
          unfold storeVals
          rw [ho]
          exact hmem
        · exact Or.inr hv
  · left
    rw [storeVals_congr _ _ _ (hSet_get_ne s r k v r' hr)] at hw
    exact hw

theorem hPush_length (s : Store) (v : HVal) (ws : List HVal) :
    (hPush s v ws).length = s.length := by
  rcases v with _ | _ | b | n | str | r
  · rfl
  · rfl
  · rfl
  · rfl
  · rfl
  · simp only [hPush]
    rcases ho : s[r]? with _ | o
    · rfl
    · rcases o with fs | xs
      · rfl
      · simp

theorem hPush_get_ne (s : Store) (r : Nat) (ws : List HVal) (r' : Nat)
    (h : r' ≠ r) : (hPush s (.ref r) ws)[r']? = s[r']? := by
  simp only [hPush]
  rcases ho : s[r]? with _ | o
  · rfl
  · rcases o with fs | xs
    · rfl
    · rw [List.getElem?_set_ne (fun he => h he.symm)]

theorem hPush_storeVals_sub (s : Store) (r : Nat) (ws : List HVal)
    (r' : Nat) :
    ∀ w ∈ storeVals (hPush s (.ref r) ws) r',
      w ∈ storeVals s r' ∨ w ∈ ws := by
  intro w hw
  by_cases hr : r' = r
  · subst hr
    simp only [hPush] at hw
    rcases ho : s[r']? with _ | o
    · rw [ho] at hw
      exact Or.inl hw
    · rw [ho] at hw
      rcases o with fs | xs
      · exact Or.inl hw
      · have hlt : r' < s.length := (List.getElem?_eq_some_iff.mp ho).1
        unfold storeVals at hw
        rw [List.getElem?_set_self'] at hw
        simp only [ho, Option.map_some] at hw
        have : w ∈ objVals (HObj.arr (xs ++ ws)) := hw
        simp only [objVals] at this
        rcases List.mem_append.mp this with hl | hrr
        · left
          unfold storeVals
          rw [ho]
          exact hl
        · exact Or.inr hrr
  · left
    rw [storeVals_congr _ _ _ (hPush_get_ne s r ws r' hr)] at hw
    exact hw

theorem storeExt_refl (s : Store) (A : Set Nat) (hC : refClosed s A)
    (hB : setBounded s A) : StoreExt s s A A :=
  ⟨Set.Subset.refl A, hC, hB, fun _ _ => rfl, fun r hr => Or.inl hr, le_rfl⟩

theorem storeExt_trans {s1 s2 s3 : Store} {A1 A2 A3 : Set Nat}
    (h12 : StoreExt s1 s2 A1 A2) (h23 : StoreExt s2 s3 A2 A3) :
    StoreExt s1 s3 A1 A3 := by
  obtain ⟨hsub12, hC2, hB2, hf12, hn12, hl12⟩ := h12
  obtain ⟨hsub23, hC3, hB3, hf23, hn23, hl23⟩ := h23
  refine ⟨hsub12.trans hsub23, hC3, hB3, ?_, ?_, hl12.trans hl23⟩
  · intro r hr
    have hr2 : r ∉ A2 := fun hm => hr (hsub23 hm)
    rw [hf23 r hr, hf12 r hr2]
  · intro r hr
    rcases hn23 r hr with h2 | hge
    · rcases hn12 r h2 with h1 | hge1
      · exact Or.inl h1
      · exact Or.inr hge1
    · exact Or.inr (hl12.trans hge)

theorem storeExt_hSet_prim (s : Store) (tref : Nat) (k : String) (w : HVal)
    (A : Set Nat) (hC : refClosed s A) (hB : setBounded s A)
    (htref : tref ∈ A) (hw : ∀ r, w ≠ .ref r) :
    StoreExt s (hSet s tref k w) A A := by
  refine ⟨Set.Subset.refl A, ?_, ?_, ?_, fun r hr => Or.inl hr, ?_⟩
  · intro r hr v hv r' href
    rcases hSet_storeVals_sub s tref k w r v hv with hmem | hvv | hvv
    · exact hC r hr v hmem r' href
    · subst hvv
      exact absurd href (hw r')
    · subst hvv
      cases href
  · intro r hr
    rw [hSet_length]
    exact hB r hr
  · intro r hr
    by_cases hrt : r = tref
    · exact absurd (hrt ▸ htref) hr
    · exact hSet_get_ne s tref k w r hrt
  · rw [hSet_length]

theorem storeVals_of_get_some (s : Store) (r : Nat) (o : HObj)
    (h : s[r]? = some o) : storeVals s r = objVals o := by
  simp only [storeVals]
  rw [h]

theorem storeExt_alloc_set (s : Store) (tref : Nat) (k : String)
    (fresh : HObj) (hfresh : objVals fresh = []) (A : Set Nat)
    (hC : refClosed s A) (hB : setBounded s A) (htref : tref ∈ A) :
    StoreExt s (hSet (s ++ [fresh]) tref k (.ref s.length)) A
      (insert s.length A) := by
  have hnew : s.length ∉ A := fun hm => lt_irrefl _ (hB _ hm)
  have hlen1 : (s ++ [fresh]).length = s.length + 1 := by simp
  refine ⟨Set.subset_insert _ _, ?_, ?_, ?_, ?_, ?_⟩
  · intro r hr v hv r' href
    rcases Set.mem_insert_iff.mp hr with rfl | hrA
    · have hne : s.length ≠ tref := fun he => hnew (he ▸ htref)
      rw [storeVals_congr _ _ _ (hSet_get_ne _ tref k _ s.length hne),
        storeVals_of_get_some _ _ _ (append_singleton_get_self s fresh),
        hfresh] at hv
      cases hv
    · rcases hSet_storeVals_sub (s ++ [fresh]) tref k (.ref s.length) r v hv
        with hmem | hvv | hvv
      · rw [storeVals_congr _ _ _
          (append_get_lt s [fresh] r (hB r hrA))] at hmem
        exact Set.mem_insert_iff.mpr
          (Or.inr (hC r hrA v hmem r' href))
      · subst hvv
        cases href
        exact Set.mem_insert _ _
      · subst hvv
        cases href
  · intro r hr
    rw [hSet_length, hlen1]
    rcases Set.mem_insert_iff.mp hr with rfl | hrA
    · omega
    · have := hB r hrA
      omega
  · intro r hr
    have hrA : r ∉ A := fun hm => hr (Set.mem_insert_iff.mpr (Or.inr hm))
    have hrn : r ≠ s.length := fun he => hr (he ▸ Set.mem_insert _ _)
    have hrt : r ≠ tref := fun he => hrA (he ▸ htref)
    rw [hSet_get_ne _ tref k _ r hrt, append_singleton_get_ne s fresh r hrn]
  · intro r hr
    rcases Set.mem_insert_iff.mp hr with rfl | hrA
    · exact Or.inr le_rfl
    · exact Or.inl hrA
  · rw [hSet_length, hlen1]
    omega

theorem awoStepH_ext (fuel : Nat)
    (hP : ∀ (s : Store) (tref : Nat) (src : HVal) (A : Set Nat),
      refClosed s A → setBounded s A → tref ∈ A →
      ∃ A', StoreExt s (awoH fuel s tref src) A A') :
    ∀ (s : Store) (tref sref : Nat) (k : String) (A : Set Nat),
      refClosed s A → setBounded s A → tref ∈ A →
      ∃ A', StoreExt s (awoStepH fuel s tref sref k) A A' := by
  intro s tref sref k A hC hB htA
  unfold awoStepH
  rcases htv : hGet s tref k with _ | _ | b | n | str | tr
  · rcases hsv : hGet s sref k with _ | _ | b | n | str | sr
    · exact ⟨A, storeExt_refl s A hC hB⟩
    · exact ⟨A, storeExt_hSet_prim s tref k .null A hC hB htA
        (fun r h => by cases h)⟩
    · exact ⟨A, storeExt_hSet_prim s tref k (.bool b) A hC hB htA
        (fun r h => by cases h)⟩
    · exact ⟨A, storeExt_hSet_prim s tref k (.num n) A hC hB htA
        (fun r h => by cases h)⟩
    · exact ⟨A, storeExt_hSet_prim s tref k (.str str) A hC hB htA
        (fun r h => by cases h)⟩
    · have hfresh : objVals
          (if hIsArr s (.ref sr) then HObj.arr [] else HObj.obj []) = [] := by
        by_cases hb : (hIsArr s (.ref sr) : Prop)
        · rw [if_pos hb]; rfl
        · rw [if_neg hb]; rfl
      have ext1 := storeExt_alloc_set s tref k
        (if hIsArr s (.ref sr) then HObj.arr [] else HObj.obj [])
        hfresh A hC hB htA
      obtain ⟨hsub1, hC1, hB1, hf1, hn1, hl1⟩ := ext1
      obtain ⟨A2, ext2⟩ := hP
        (hSet (s ++ [if hIsArr s (.ref sr) then HObj.arr [] else HObj.obj []])
          tref k (.ref s.length))
        s.length (.ref sr) (insert s.length A) hC1 hB1
        (Set.mem_insert _ _)
      exact ⟨A2, storeExt_trans ⟨hsub1, hC1, hB1, hf1, hn1, hl1⟩ ext2⟩
  · exact ⟨A, storeExt_refl s A hC hB⟩
  · exact ⟨A, storeExt_refl s A hC hB⟩
  · exact ⟨A, storeExt_refl s A hC hB⟩
  · exact ⟨A, storeExt_refl s A hC hB⟩
  · have htr : tr ∈ A := by
      have hne : hGet s tref k ≠ .undef := by rw [htv]; intro h; cases h
      have hmem := hGet_mem_storeVals s tref k hne
      rw [htv] at hmem
      exact hC tref htA _ hmem tr rfl
    exact hP s tr (hGet s sref k) A hC hB htr

theorem awoFoldH_ext_of (fuel : Nat)
    (hP : ∀ (s : Store) (tref : Nat) (src : HVal) (A : Set Nat),
      refClosed s A → setBounded s A → tref ∈ A →
      ∃ A', StoreExt s (awoH fuel s tref src) A A') :
    ∀ (keys : List String) (s : Store) (tref sref : Nat) (A : Set Nat),
      refClosed s A → setBounded s A → tref ∈ A →
      ∃ A', StoreExt s (awoFoldH fuel s tref sref keys) A A' := by
  intro keys
  induction keys with
  | nil =>
      intro s tref sref A hC hB htA
      have heq : awoFoldH fuel s tref sref [] = s := by simp [awoFoldH]
      rw [heq]
      exact ⟨A, storeExt_refl s A hC hB⟩
  | cons k rest ih =>
      intro s tref sref A hC hB htA
      obtain ⟨A1, ext1⟩ := awoStepH_ext fuel hP s tref sref k A hC hB htA
      obtain ⟨A2, ext2⟩ := ih (awoStepH fuel s tref sref k) tref sref A1
        ext1.2.1 ext1.2.2.1 (ext1.1 htA)
      refine ⟨A2, ?_⟩
      have heq : awoFoldH fuel s tref sref (k :: rest)
          = awoFoldH fuel (awoStepH fuel s tref sref k) tref sref rest := by
        simp [awoFoldH]
      rw [heq]
      exact storeExt_trans ext1 ext2

theorem awoH_ext : ∀ (fuel : Nat) (s : Store) (tref : Nat) (src : HVal)
    (A : Set Nat), refClosed s A → setBounded s A → tref ∈ A →
    ∃ A', StoreExt s (awoH fuel s tref src) A A' := by
  intro fuel
  induction fuel with
  | zero =>
      intro s tref src A hC hB htA
      have heq : awoH 0 s tref src = s := by simp [awoH]
      rw [heq]
      exact ⟨A, storeExt_refl s A hC hB⟩
  | succ n ih =>
      intro s tref src A hC hB htA
      rcases src with _ | _ | b | m | str | sref
      · have heq : awoH (n + 1) s tref .undef = s := by simp [awoH]
        rw [heq]; exact ⟨A, storeExt_refl s A hC hB⟩
      · have heq : awoH (n + 1) s tref .null = s := by simp [awoH]
        rw [heq]; exact ⟨A, storeExt_refl s A hC hB⟩
      · have heq : awoH (n + 1) s tref (.bool b) = s := by simp [awoH]
        rw [heq]; exact ⟨A, storeExt_refl s A hC hB⟩
      · have heq : awoH (n + 1) s tref (.num m) = s := by simp [awoH]
        rw [heq]; exact ⟨A, storeExt_refl s A hC hB⟩
      · have heq : awoH (n + 1) s tref (.str str) = s := by simp [awoH]
        rw [heq]; exact ⟨A, storeExt_refl s A hC hB⟩
      · have heq : awoH (n + 1) s tref (.ref sref)
            = awoFoldH n s tref sref (hKeys s sref) := by
          simp [awoH]
        rw [heq]
        exact awoFoldH_ext_of n ih (hKeys s sref) s tref sref A hC hB htA

theorem frameBelow_trans {n0 : Nat} {s1 s2 s3 : Store}
    (h12 : frameBelow n0 s1 s2) (h23 : frameBelow n0 s2 s3) :
    frameBelow n0 s1 s3 :=
  fun r hr => (h23 r hr).trans (h12 r hr)

theorem createInv_of_storeExt {n0 : Nat} {s s2 : Store} {A A2 : Set Nat}
    {config : HExtractedConfig} (hinv : CreateInv n0 s A config)
    (hext : StoreExt s s2 A A2) : CreateInv n0 s2 A2 config := by
  obtain ⟨hsub, hC2, hB2, hframe, hnew, hlen⟩ := hext
  have hrna : config.rules ∉ A2 := by
    intro hm
    rcases hnew _ hm with hin | hge
    · exact hinv.rulesNotA hin
    · exact absurd hinv.rulesLt (not_lt.mpr hge)
  have hpna : config.plugins ∉ A2 := by
    intro hm
    rcases hnew _ hm with hin | hge
    · exact hinv.pluginsNotA hin
    · exact absurd hinv.pluginsLt (not_lt.mpr hge)
  refine ⟨hinv.n0LeLen.trans hlen, hC2, hB2, ?_, hsub hinv.envA,
    hsub hinv.globalsA, hsub hinv.parserOptionsA, hsub hinv.settingsA,
    hrna, hinv.rulesAbove, lt_of_lt_of_le hinv.rulesLt hlen, ?_,
    hpna, hinv.pluginsAbove, lt_of_lt_of_le hinv.pluginsLt hlen,
    hinv.pluginsNeRules⟩
  · intro r hr
    rcases hnew r hr with hin | hge
    · exact hinv.above r hin
    · exact hinv.n0LeLen.trans hge
  · intro tr htr
    rw [storeVals_congr _ _ _ (hframe _ hrna)] at htr
    obtain ⟨h1, h2, h3, h4, h5⟩ := hinv.rulesKids tr htr
    refine ⟨h1, lt_of_lt_of_le h2 hlen, ?_, h4, h5⟩
    intro hm
    rcases hnew tr hm with hin | hge
    · exact h3 hin
    · exact absurd h2 (not_lt.mpr hge)

theorem createInv_setParser {n0 : Nat} {s : Store} {A : Set Nat}
    {config : HExtractedConfig} (p : HVal)
    (hinv : CreateInv n0 s A config) :
    CreateInv n0 s A { config with parser := p } :=
  ⟨hinv.n0LeLen, hinv.closed, hinv.bounded, hinv.above, hinv.envA,
   hinv.globalsA, hinv.parserOptionsA, hinv.settingsA, hinv.rulesNotA,
   hinv.rulesAbove, hinv.rulesLt, hinv.rulesKids, hinv.pluginsNotA,
   hinv.pluginsAbove, hinv.pluginsLt, hinv.pluginsNeRules⟩

theorem createInv_processor {n0 : Nat} {s : Store} {A : Set Nat}
    {config : HExtractedConfig} (q : HVal)
    (hinv : CreateInv n0 s A config) :
    CreateInv n0 s A { config with processor := q } :=
  ⟨hinv.n0LeLen, hinv.closed, hinv.bounded, hinv.above, hinv.envA,
   hinv.globalsA, hinv.parserOptionsA, hinv.settingsA, hinv.rulesNotA,
   hinv.rulesAbove, hinv.rulesLt, hinv.rulesKids, hinv.pluginsNotA,
   hinv.pluginsAbove, hinv.pluginsLt, hinv.pluginsNeRules⟩

theorem createInv_awoH (fuel : Nat) {n0 : Nat} {s : Store} {A : Set Nat}
    {config : HExtractedConfig} (hinv : CreateInv n0 s A config)
    (tref : Nat) (htA : tref ∈ A) (src : HVal) :
    ∃ A2, CreateInv n0 (awoH fuel s tref src) A2 config
      ∧ frameBelow n0 s (awoH fuel s tref src) := by
  obtain ⟨A2, hext⟩ := awoH_ext fuel s tref src A hinv.closed hinv.bounded htA
  refine ⟨A2, createInv_of_storeExt hinv hext, ?_⟩
  intro r hr
  refine hext.2.2.2.1 r ?_
  intro hm
  rcases hext.2.2.2.2.1 r hm with hin | hge
  · exact absurd (hinv.above r hin) (by omega)
  · exact absurd (hinv.n0LeLen.trans hge) (by omega)

theorem createInv_hSet_plugins {n0 : Nat} {s : Store} {A : Set Nat}
    {config : HExtractedConfig} (k : String) (v : HVal)
    (hinv : CreateInv n0 s A config) :
    CreateInv n0 (hSet s config.plugins k v) A config
    ∧ frameBelow n0 s (hSet s config.plugins k v) := by
  have hvalsA : ∀ r ∈ A,
      storeVals (hSet s config.plugins k v) r = storeVals s r := by
    intro r hr
    refine storeVals_congr _ _ _ (hSet_get_ne s config.plugins k v r ?_)
    intro he
    exact hinv.pluginsNotA (he ▸ hr)
  have hvalsR : storeVals (hSet s config.plugins k v) config.rules
      = storeVals s config.rules :=
    storeVals_congr _ _ _ (hSet_get_ne s config.plugins k v config.rules
      (fun he => hinv.pluginsNeRules he.symm))
  constructor
  · refine ⟨?_, ?_, ?_, hinv.above, hinv.envA, hinv.globalsA,
      hinv.parserOptionsA, hinv.settingsA, hinv.rulesNotA, hinv.rulesAbove,
      ?_, ?_, hinv.pluginsNotA, hinv.pluginsAbove, ?_, hinv.pluginsNeRules⟩
    · rw [hSet_length]; exact hinv.n0LeLen
    · intro r hr w hw r2 he
      rw [hvalsA r hr] at hw
      exact hinv.closed r hr w hw r2 he
    · intro r hr
      rw [hSet_length]
      exact hinv.bounded r hr
    · rw [hSet_length]; exact hinv.rulesLt
    · intro tr htr
      rw [hvalsR] at htr
      obtain ⟨h1, h2, h3, h4, h5⟩ := hinv.rulesKids tr htr
      rw [hSet_length]
      exact ⟨h1, h2, h3, h4, h5⟩
    · rw [hSet_length]; exact hinv.pluginsLt
  · intro r hr
    refine hSet_get_ne s config.plugins k v r ?_
    intro he
    exact absurd (he ▸ hinv.pluginsAbove) (by omega)

theorem mergePluginsLoopH_cons (s : Store) (tref sref : Nat) (k : String)
    (rest : List String) :
    mergePluginsLoopH s tref sref (k :: rest)
      = (match hGet s tref k with
         | .undef =>
             if hTruthy (hGetVal s (hGet s sref k) "error")
             then (some (hGetVal s (hGet s sref k) "error"), s)
             else mergePluginsLoopH (hSet s tref k (hGet s sref k)) tref
               sref rest
         | _ => mergePluginsLoopH s tref sref rest) := rfl

theorem createInv_mergePluginsLoopH {n0 : Nat} {A : Set Nat}
    {config : HExtractedConfig} (sref : Nat) :
    ∀ (keys : List String) (s : Store), CreateInv n0 s A config →
      CreateInv n0 (mergePluginsLoopH s config.plugins sref keys).2 A config
      ∧ frameBelow n0 s (mergePluginsLoopH s config.plugins sref keys).2 := by
  intro keys
  induction keys with
  | nil =>
      intro s hinv
      exact ⟨hinv, fun _ _ => rfl⟩
  | cons k rest ih =>
      intro s hinv
      rw [mergePluginsLoopH_cons]
      rcases htv : hGet s config.plugins k with _ | _ | b | m | str | tr
      · by_cases herr :
            hTruthy (hGetVal s (hGet s sref k) "error") = true
        · have heq :
              (if hTruthy (hGetVal s (hGet s sref k) "error")
               then ((some (hGetVal s (hGet s sref k) "error"), s)
                 : Option HVal × Store)
               else mergePluginsLoopH
                 (hSet s config.plugins k (hGet s sref k)) config.plugins
                 sref rest)
              = (some (hGetVal s (hGet s sref k) "error"), s) := if_pos herr
          rw [heq]
          exact ⟨hinv, fun _ _ => rfl⟩
        · have heq :
              (if hTruthy (hGetVal s (hGet s sref k) "error")
               then ((some (hGetVal s (hGet s sref k) "error"), s)
                 : Option HVal × Store)
               else mergePluginsLoopH
                 (hSet s config.plugins k (hGet s sref k)) config.plugins
                 sref rest)
              = mergePluginsLoopH
                  (hSet s config.plugins k (hGet s sref k)) config.plugins
                  sref rest := if_neg herr
          rw [heq]
          have hset := createInv_hSet_plugins k (hGet s sref k) hinv
          have hrec := ih (hSet s config.plugins k (hGet s sref k)) hset.1
          exact ⟨hrec.1, frameBelow_trans hset.2 hrec.2⟩
      · exact ih s hinv
      · exact ih s hinv
      · exact ih s hinv
      · exact ih s hinv
      · exact ih s hinv

theorem createInv_mergePluginsH {n0 : Nat} {s : Store} {A : Set Nat}
    {config : HExtractedConfig} (src : HVal)
    (hinv : CreateInv n0 s A config) :
    CreateInv n0 (mergePluginsH s config.plugins src).2 A config
    ∧ frameBelow n0 s (mergePluginsH s config.plugins src).2 := by
  rcases src with _ | _ | b | m | str | sref
  · exact ⟨hinv, fun _ _ => rfl⟩
  · exact ⟨hinv, fun _ _ => rfl⟩
  · exact ⟨hinv, fun _ _ => rfl⟩
  · exact ⟨hinv, fun _ _ => rfl⟩
  · exact ⟨hinv, fun _ _ => rfl⟩
  · exact createInv_mergePluginsLoopH sref (hKeys s sref) s hinv

theorem createInv_rulesAlloc {n0 : Nat} {s : Store} {A : Set Nat}
    {config : HExtractedConfig} (hinv : CreateInv n0 s A config)
    (k : String) (o : HObj) :
    CreateInv n0 (hSet (s ++ [o]) config.rules k (.ref s.length)) A config
    ∧ frameBelow n0 s (hSet (s ++ [o]) config.rules k (.ref s.length)) := by
  have hlen : (hSet (s ++ [o]) config.rules k (.ref s.length)).length
      = s.length + 1 := by
    rw [hSet_length]; simp
  have hvalsA : ∀ r ∈ A,
      storeVals (hSet (s ++ [o]) config.rules k (.ref s.length)) r
        = storeVals s r := by
    intro r hr
    have hne : r ≠ config.rules := fun he => hinv.rulesNotA (he ▸ hr)
    rw [storeVals_congr _ _ _ (hSet_get_ne (s ++ [o]) config.rules k _ r hne)]
    exact storeVals_congr _ _ _ (append_get_lt s [o] r (hinv.bounded r hr))
  constructor
  · refine ⟨?_, ?_, ?_, hinv.above, hinv.envA, hinv.globalsA,
      hinv.parserOptionsA, hinv.settingsA, hinv.rulesNotA, hinv.rulesAbove,
      ?_, ?_, hinv.pluginsNotA, hinv.pluginsAbove, ?_, hinv.pluginsNeRules⟩
    · rw [hlen]
      have := hinv.n0LeLen
      omega
    · intro r hr w hw r2 he
      rw [hvalsA r hr] at hw
      exact hinv.closed r hr w hw r2 he
    · intro r hr
      rw [hlen]
      have := hinv.bounded r hr
      omega
    · rw [hlen]
      have := hinv.rulesLt
      omega
    · intro tr htr
      rcases hSet_storeVals_sub (s ++ [o]) config.rules k (.ref s.length)
          config.rules _ htr with hmem | hv | hv
      · rw [storeVals_congr _ _ _
            (append_get_lt s [o] config.rules hinv.rulesLt)] at hmem
        obtain ⟨h1, h2, h3, h4, h5⟩ := hinv.rulesKids tr hmem
        rw [hlen]
        exact ⟨h1, by omega, h3, h4, h5⟩
      · cases hv
        rw [hlen]
        refine ⟨hinv.n0LeLen, by omega, ?_, ?_, ?_⟩
        · intro hm
          exact absurd (hinv.bounded _ hm) (by omega)
        · intro he
          exact absurd (he ▸ hinv.rulesLt) (by omega)
        · intro he
          exact absurd (he ▸ hinv.pluginsLt) (by omega)
      · cases hv
    · rw [hlen]
      have := hinv.pluginsLt
      omega
  · intro r hr
    have hne : r ≠ config.rules :=
      fun he => absurd (he ▸ hinv.rulesAbove) (by omega)
    rw [hSet_get_ne (s ++ [o]) config.rules k _ r hne]
    exact append_get_lt s [o] r (by have := hinv.n0LeLen; omega)

theorem createInv_rulesPush {n0 : Nat} {s : Store} {A : Set Nat}
    {config : HExtractedConfig} (hinv : CreateInv n0 s A config)
    (tr : Nat) (hkid : HVal.ref tr ∈ storeVals s config.rules)
    (ws : List HVal) :
    CreateInv n0 (hPush s (.ref tr) ws) A config
    ∧ frameBelow n0 s (hPush s (.ref tr) ws) := by
  obtain ⟨htrn0, htrlt, htrA, htrneR, htrneP⟩ := hinv.rulesKids tr hkid
  have hvalsA : ∀ r ∈ A,
      storeVals (hPush s (.ref tr) ws) r = storeVals s r := by
    intro r hr
    refine storeVals_congr _ _ _ (hPush_get_ne s tr ws r ?_)
    intro he
    exact htrA (he ▸ hr)
  have hvalsR : storeVals (hPush s (.ref tr) ws) config.rules
      = storeVals s config.rules :=
    storeVals_congr _ _ _ (hPush_get_ne s tr ws config.rules
      (fun he => htrneR he.symm))
  constructor
  · refine ⟨?_, ?_, ?_, hinv.above, hinv.envA, hinv.globalsA,
      hinv.parserOptionsA, hinv.settingsA, hinv.rulesNotA, hinv.rulesAbove,
      ?_, ?_, hinv.pluginsNotA, hinv.pluginsAbove, ?_, hinv.pluginsNeRules⟩
    · rw [hPush_length]; exact hinv.n0LeLen
    · intro r hr w hw r2 he
      rw [hvalsA r hr] at hw
      exact hinv.closed r hr w hw r2 he
    · intro r hr
      rw [hPush_length]
      exact hinv.bounded r hr
    · rw [hPush_length]; exact hinv.rulesLt
    · intro tr2 htr2
      rw [hvalsR] at htr2
      obtain ⟨h1, h2, h3, h4, h5⟩ := hinv.rulesKids tr2 htr2
      rw [hPush_length]
      exact ⟨h1, h2, h3, h4, h5⟩
    · rw [hPush_length]; exact hinv.pluginsLt
  · intro r hr
    refine hPush_get_ne s tr ws r ?_
    intro he
    exact absurd (he ▸ htrn0) (by omega)

theorem mergeRulesStepH_eq (s : Store) (tref sref : Nat) (k : String) :
    mergeRulesStepH s tref sref k
      = (match hGet s tref k with
         | .undef =>
             hSet (s ++ [if hIsArr s (hGet s sref k)
                 then HObj.arr (hElts s (hGet s sref k))
                 else HObj.arr [hGet s sref k]]) tref k (.ref s.length)
         | tv =>
             if hLen s tv = some 1 ∧ hIsArr s (hGet s sref k)
                 ∧ (hLen s (hGet s sref k)).getD 0 ≥ 2 then
               hPush s tv ((hElts s (hGet s sref k)).drop 1)
             else s) := rfl

theorem createInv_ruleIfPrim {n0 : Nat} {s : Store} {A : Set Nat}
    {config : HExtractedConfig} (hinv : CreateInv n0 s A config)
    (c : Prop) [Decidable c] (tv : HVal) (hnr : ∀ r, tv ≠ HVal.ref r)
    (ws : List HVal) :
    CreateInv n0 (if c then hPush s tv ws else s) A config
    ∧ frameBelow n0 s (if c then hPush s tv ws else s) := by
  by_cases hc : c
  · rw [if_pos hc]
    rcases tv with _ | _ | b | m | str | r
    · exact ⟨hinv, fun _ _ => rfl⟩
    · exact ⟨hinv, fun _ _ => rfl⟩
    · exact ⟨hinv, fun _ _ => rfl⟩
    · exact ⟨hinv, fun _ _ => rfl⟩
    · exact ⟨hinv, fun _ _ => rfl⟩
    · exact absurd rfl (hnr r)
  · rw [if_neg hc]
    exact ⟨hinv, fun _ _ => rfl⟩

theorem createInv_ruleIfRef {n0 : Nat} {s : Store} {A : Set Nat}
    {config : HExtractedConfig} (hinv : CreateInv n0 s A config)
    (c : Prop) [Decidable c] (tr : Nat)
    (hkid : HVal.ref tr ∈ storeVals s config.rules) (ws : List HVal) :
    CreateInv n0 (if c then hPush s (.ref tr) ws else s) A config
    ∧ frameBelow n0 s (if c then hPush s (.ref tr) ws else s) := by
  by_cases hc : c
  · rw [if_pos hc]
    exact createInv_rulesPush hinv tr hkid ws
  · rw [if_neg hc]
    exact ⟨hinv, fun _ _ => rfl⟩

theorem createInv_mergeRulesStepH {n0 : Nat} {s : Store} {A : Set Nat}
    {config : HExtractedConfig} (sref : Nat) (k : String)
    (hinv : CreateInv n0 s A config) :
    CreateInv n0 (mergeRulesStepH s config.rules sref k) A config
    ∧ frameBelow n0 s (mergeRulesStepH s config.rules sref k) := by
  rw [mergeRulesStepH_eq]
  rcases htv : hGet s config.rules k with _ | _ | b | m | str | tr
  · exact createInv_rulesAlloc hinv k _
  · exact createInv_ruleIfPrim hinv _ _ (fun r h => by cases h) _
  · exact createInv_ruleIfPrim hinv _ _ (fun r h => by cases h) _
  · exact createInv_ruleIfPrim hinv _ _ (fun r h => by cases h) _
  · exact createInv_ruleIfPrim hinv _ _ (fun r h => by cases h) _
  · have hkid : HVal.ref tr ∈ storeVals s config.rules := by
      have hne : hGet s config.rules k ≠ .undef := by
        rw [htv]; intro hh; cases hh
      have := hGet_mem_storeVals s config.rules k hne
      rw [htv] at this
      exact this
    exact createInv_ruleIfRef hinv _ tr hkid _

theorem createInv_mergeRulesFold {n0 : Nat} {A : Set Nat}
    {config : HExtractedConfig} (sref : Nat) :
    ∀ (keys : List String) (s : Store), CreateInv n0 s A config →
      CreateInv n0
        (keys.foldl (fun t k => mergeRulesStepH t config.rules sref k) s)
        A config
      ∧ frameBelow n0 s
        (keys.foldl (fun t k => mergeRulesStepH t config.rules sref k) s) := by
  intro keys
  induction keys with
  | nil =>
      intro s hinv
      exact ⟨hinv, fun _ _ => rfl⟩
  | cons k rest ih =>
      intro s hinv
      rw [List.foldl_cons]
      have hstep := createInv_mergeRulesStepH sref k hinv
      have hrec := ih (mergeRulesStepH s config.rules sref k) hstep.1
      exact ⟨hrec.1, frameBelow_trans hstep.2 hrec.2⟩

theorem createInv_mergeRulesH {n0 : Nat} {s : Store} {A : Set Nat}
    {config : HExtractedConfig} (src : HVal)
    (hinv : CreateInv n0 s A config) :
    CreateInv n0 (mergeRulesH s config.rules src) A config
    ∧ frameBelow n0 s (mergeRulesH s config.rules src) := by
  rcases src with _ | _ | b | m | str | sref
  · exact ⟨hinv, fun _ _ => rfl⟩
  · exact ⟨hinv, fun _ _ => rfl⟩
  · exact ⟨hinv, fun _ _ => rfl⟩
  · exact ⟨hinv, fun _ _ => rfl⟩
  · exact ⟨hinv, fun _ _ => rfl⟩
  · exact createInv_mergeRulesFold sref (hKeys s sref) s hinv

theorem createInv_stepTail2H (fuel : Nat) {n0 : Nat} {s : Store}
    {A : Set Nat} {config : HExtractedConfig} (e : HElement)
    (hinv : CreateInv n0 s A config) (res : Option HVal) (s2 : Store)
    (config2 : HExtractedConfig)
    (h : stepTail2H fuel s config e = (res, s2, config2)) :
    ∃ A2, CreateInv n0 s2 A2 config2 ∧ frameBelow n0 s s2 := by
  obtain ⟨A1, hinv1, f1⟩ := createInv_awoH fuel hinv config.env hinv.envA e.env
  obtain ⟨A2, hinv2, f2⟩ :=
    createInv_awoH fuel hinv1 config.globals hinv1.globalsA e.globals
  obtain ⟨A3, hinv3, f3⟩ :=
    createInv_awoH fuel hinv2 config.parserOptions hinv2.parserOptionsA
      e.parserOptions
  obtain ⟨A4, hinv4, f4⟩ :=
    createInv_awoH fuel hinv3 config.settings hinv3.settingsA e.settings
  have hm := createInv_mergePluginsH e.plugins hinv4
  rcases hmp : mergePluginsH
      (awoH fuel (awoH fuel (awoH fuel (awoH fuel s config.env e.env)
        config.globals e.globals) config.parserOptions e.parserOptions)
        config.settings e.settings) config.plugins e.plugins with ⟨op, s5⟩
  rw [hmp] at hm
  have hm1 : CreateInv n0 s5 A4 config := hm.1
  have hm2 : frameBelow n0
      (awoH fuel (awoH fuel (awoH fuel (awoH fuel s config.env e.env)
        config.globals e.globals) config.parserOptions e.parserOptions)
        config.settings e.settings) s5 := hm.2
  have hf5 : frameBelow n0 s s5 :=
    frameBelow_trans f1 (frameBelow_trans f2 (frameBelow_trans f3
      (frameBelow_trans f4 hm2)))
  have hunf : stepTail2H fuel s config e
      = (match (op, s5) with
         | (some errv, t) => (some errv, t, config)
         | (none, t) => (none, mergeRulesH t config.rules e.rules, config)) := by
    rw [← hmp]
    rfl
  rw [hunf] at h
  rcases op with _ | errv
  · have h2 : ((none, mergeRulesH s5 config.rules e.rules, config)
        : Option HVal × Store × HExtractedConfig) = (res, s2, config2) := h
    injection h2 with ha hbc
    injection hbc with hb hc
    subst ha
    subst hb
    subst hc
    have hr := createInv_mergeRulesH e.rules hm1
    exact ⟨A4, hr.1, frameBelow_trans hf5 hr.2⟩
  · have h2 : ((some errv, s5, config)
        : Option HVal × Store × HExtractedConfig) = (res, s2, config2) := h
    injection h2 with ha hbc
    injection hbc with hb hc
    subst ha
    subst hb
    subst hc
    exact ⟨A4, hm1, hf5⟩

theorem createInv_stepTailH (fuel : Nat) {n0 : Nat} {s : Store}
    {A : Set Nat} {config : HExtractedConfig} (e : HElement)
    (hinv : CreateInv n0 s A config) (res : Option HVal) (s2 : Store)
    (config2 : HExtractedConfig)
    (h : stepTailH fuel s config e = (res, s2, config2)) :
    ∃ A2, CreateInv n0 s2 A2 config2 ∧ frameBelow n0 s s2 := by
  unfold stepTailH at h
  by_cases hcp : (!hTruthy config.processor && hTruthy e.processor) = true
  · rw [if_pos hcp] at h
    exact createInv_stepTail2H fuel e (createInv_processor e.processor hinv)
      res s2 config2 h
  · rw [if_neg hcp] at h
    exact createInv_stepTail2H fuel e hinv res s2 config2 h

theorem createInv_createConfigStepH (fuel : Nat) {n0 : Nat} {s : Store}
    {A : Set Nat} {config : HExtractedConfig} (e : HElement)
    (hinv : CreateInv n0 s A config) (res : Option HVal) (s2 : Store)
    (config2 : HExtractedConfig)
    (h : createConfigStepH fuel s config e = (res, s2, config2)) :
    ∃ A2, CreateInv n0 s2 A2 config2 ∧ frameBelow n0 s s2 := by
  unfold createConfigStepH at h
  by_cases hp1 : (!hTruthy config.parser && hTruthy e.parser) = true
  · rw [if_pos hp1] at h
    by_cases hp2 : hTruthy (hGetVal s e.parser "error") = true
    · rw [if_pos hp2] at h
      injection h with ha hbc
      injection hbc with hb hc
      subst hb
      subst hc
      exact ⟨A, hinv, fun _ _ => rfl⟩
    · rw [if_neg hp2] at h
      exact createInv_stepTailH fuel e (createInv_setParser e.parser hinv)
        res s2 config2 h
  · rw [if_neg hp1] at h
    exact createInv_stepTailH fuel e hinv res s2 config2 h

theorem createInv_createConfigLoopH (fuel : Nat) (elements : List HElement) :
    ∀ (indices : List Nat) {n0 : Nat} (s : Store) {A : Set Nat}
      {config : HExtractedConfig}, CreateInv n0 s A config →
      ∀ (res : Option HVal) (s2 : Store),
        createConfigLoopH fuel elements indices s config = (res, s2) →
        frameBelow n0 s s2 := by
  intro indices
  induction indices with
  | nil =>
      intro n0 s A config hinv res s2 h
      have h2 : ((none, s) : Option HVal × Store) = (res, s2) := h
      injection h2 with ha hb
      subst hb
      exact fun _ _ => rfl
  | cons i rest ih =>
      intro n0 s A config hinv res s2 h
      simp only [createConfigLoopH] at h
      rcases hstep : createConfigStepH fuel s config (elements.getD i {})
        with ⟨ores, s1, c1⟩
      rw [hstep] at h
      obtain ⟨A1, hinv1, f1⟩ :=
        createInv_createConfigStepH fuel _ hinv ores s1 c1 hstep
      rcases ores with _ | errv
      · have h3 : createConfigLoopH fuel elements rest s1 c1 = (res, s2) := h
        exact frameBelow_trans f1 (ih s1 hinv1 res s2 h3)
      · have h3 : ((some errv, s1) : Option HVal × Store) = (res, s2) := h
        injection h3 with ha hb
        subst hb
        exact f1

theorem storeVals_append_right_empty (s : Store) (l : List HObj)
    (hl : ∀ (i : Nat) (o : HObj), l[i]? = some o → objVals o = []) (r : Nat)
    (hr : s.length ≤ r) : storeVals (s ++ l) r = [] := by
  unfold storeVals
  rw [List.getElem?_append_right hr]
  rcases ho : l[r - s.length]? with _ | o
  · rfl
  · exact hl _ o ho

theorem createInv_init (s : Store) :
    CreateInv s.length
      (s ++ [HObj.obj [], .obj [], .obj [], .obj [], .obj [], .obj []])
      ({s.length, s.length + 1, s.length + 2, s.length + 5} : Set Nat)
      { env := s.length, globals := s.length + 1, parser := .null,
        parserOptions := s.length + 2, plugins := s.length + 3,
        processor := .null, rules := s.length + 4,
        settings := s.length + 5 } := by
  have hlen : (s ++ [HObj.obj [], .obj [], .obj [], .obj [], .obj [],
      .obj []]).length = s.length + 6 := by simp
  have hempty : ∀ r, s.length ≤ r →
      storeVals (s ++ [HObj.obj [], .obj [], .obj [], .obj [], .obj [],
        .obj []]) r = [] := by
    intro r hr
    refine storeVals_append_right_empty s _ ?_ r hr
    intro i o ho
    have hilt : i < 6 := by
      have := (List.getElem?_eq_some_iff.mp ho).1
      simpa using this
    interval_cases i <;> (simp at ho; subst ho; rfl)
  refine ⟨?_, ?_, ?_, ?_, ?_, ?_, ?_, ?_, ?_, ?_, ?_, ?_, ?_, ?_, ?_, ?_⟩
  · rw [hlen]; omega
  · intro r hr v hv r2 he
    have hge : s.length ≤ r := by
      simp [Set.mem_insert_iff] at hr
      omega
    rw [hempty r hge] at hv
    cases hv
  · intro r hr
    rw [hlen]
    simp [Set.mem_insert_iff] at hr
    omega
  · intro r hr
    simp [Set.mem_insert_iff] at hr
    omega
  · simp
  · simp
  · simp
  · simp
  · intro hm
    simp [Set.mem_insert_iff] at hm
  · show s.length ≤ s.length + 4
    omega
  · show s.length + 4 < _
    rw [hlen]
    omega
  · intro tr htr
    rw [hempty (s.length + 4) (by omega)] at htr
    cases htr
  · intro hm
    simp [Set.mem_insert_iff] at hm
  · show s.length ≤ s.length + 3
    omega
  · show s.length + 3 < _
    rw [hlen]
    omega
  · show s.length + 3 ≠ s.length + 4
    omega

theorem readTreeFields_congr (d : Nat) (s s2 : Store)
    (hIH : ∀ v, valBounded s v → readTree d s2 v = readTree d s v) :
    ∀ fs : List (String × HVal), (∀ p ∈ fs, valBounded s p.2) →
      readTreeFields d s2 fs = readTreeFields d s fs := by
  intro fs
  induction fs with
  | nil => intro _; simp [readTreeFields]
  | cons p rest ih =>
      intro hall
      have h1 : readTree d s2 p.2 = readTree d s p.2 :=
        hIH p.2 (hall p (List.mem_cons_self p rest))
      have h2 := ih (fun q hq => hall q (List.mem_cons_of_mem p hq))
      simp only [readTreeFields]
      rw [h1, h2]

theorem readTreeList_congr (d : Nat) (s s2 : Store)
    (hIH : ∀ v, valBounded s v → readTree d s2 v = readTree d s v) :
    ∀ xs : List HVal, (∀ v ∈ xs, valBounded s v) →
      readTreeList d s2 xs = readTreeList d s xs := by
  intro xs
  induction xs with
  | nil => intro _; simp [readTreeList]
  | cons v rest ih =>
      intro hall
      have h1 : readTree d s2 v = readTree d s v :=
        hIH v (hall v (List.mem_cons_self v rest))
      have h2 := ih (fun w hw => hall w (List.mem_cons_of_mem v hw))
      simp only [readTreeList]
      rw [h1, h2]

theorem readTree_frame : ∀ (d : Nat) (s s2 : Store), storeClosed s →
    (∀ r, r < s.length → s2[r]? = s[r]?) →
    ∀ v, valBounded s v → readTree d s2 v = readTree d s v := by
  intro d
  induction d with
  | zero =>
      intro s s2 _ _ v _
      simp [readTree]
  | succ d ih =>
      intro s s2 hcl hf v hb
      rcases v with _ | _ | b | m | str | r
      · simp [readTree]
      · simp [readTree]
      · simp [readTree]
      · simp [readTree]
      · simp [readTree]
      · have hr : r < s.length := hb r rfl
        have hget : s2[r]? = s[r]? := hf r hr
        rcases ho : s[r]? with _ | o
        · rw [List.getElem?_eq_none_iff] at ho
          omega
        · have hbkids : ∀ w ∈ objVals o, valBounded s w := by
            intro w hw r2 he
            refine hcl r hr w ?_ r2 he
            unfold storeVals
            rw [ho]
            exact hw
          rcases o with fs | xs
          · have e1 : readTree (d + 1) s2 (.ref r)
                = JSVal.obj (readTreeFields d s2 fs) := by
              simp only [readTree]
              rw [hget, ho]
            have e2 : readTree (d + 1) s (.ref r)
                = JSVal.obj (readTreeFields d s fs) := by
              simp only [readTree]
              rw [ho]
            rw [e1, e2]
            exact congrArg JSVal.obj (readTreeFields_congr d s s2
              (ih s s2 hcl hf) fs (fun p hp => hbkids p.2
                (List.mem_map.mpr ⟨p, hp, rfl⟩)))
          · have e1 : readTree (d + 1) s2 (.ref r)
                = JSVal.arr (readTreeList d s2 xs) := by
              simp only [readTree]
              rw [hget, ho]
            have e2 : readTree (d + 1) s (.ref r)
                = JSVal.arr (readTreeList d s xs) := by
              simp only [readTree]
              rw [ho]
            rw [e1, e2]
            exact congrArg JSVal.arr (readTreeList_congr d s s2
              (ih s s2 hcl hf) xs (fun w hw => hbkids w hw))

/-- C7: the heap-level extraction merge loop (`createConfig` over matched
element indices, as run by `extractConfig`) never mutates any heap object
that existed before the fresh `ExtractedConfig` was allocated: every
pre-existing reference reads back unchanged, so each element's `env`,
`globals`, `parserOptions`, `settings` records and each `rules` value are
value-equal (to every depth) before and after extraction.  Merging copies
into the freshly allocated records, and appended rule options go into the
cloned target array, never into the source. -/
theorem extraction_no_mutation_c7 (fuel : Nat) (elements : List HElement)
    (indices : List Nat) (s : Store) (res : Option HVal) (s2 : Store)
    (hclosed : storeClosed s)
    (h : createConfigH fuel elements indices s = (res, s2)) :
    (∀ r, r < s.length → s2[r]? = s[r]?)
    ∧ ∀ d v, valBounded s v → readTree d s2 v = readTree d s v := by
  have h2 : createConfigLoopH fuel elements indices
      (s ++ [HObj.obj [], .obj [], .obj [], .obj [], .obj [], .obj []])
      { env := s.length, globals := s.length + 1, parser := .null,
        parserOptions := s.length + 2, plugins := s.length + 3,
        processor := .null, rules := s.length + 4,
        settings := s.length + 5 } = (res, s2) := h
  have hframe := createInv_createConfigLoopH fuel elements indices
    (s ++ [HObj.obj [], .obj [], .obj [], .obj [], .obj [], .obj []])
    (createInv_init s) res s2 h2
  have hfr : ∀ r, r < s.length → s2[r]? = s[r]? := by
    intro r hr
    rw [hframe r hr]
    exact append_get_lt s _ r hr
  exact ⟨hfr, fun d v hb => readTree_frame d s s2 hclosed hfr v hb⟩

/-- Witness for C7 at a concrete input: a one-object store survives the
extraction loop unchanged, including its read-back value tree. -/
theorem extraction_no_mutation_c7_witness :
    (∀ r, r < 1 →
      ([HObj.obj [("a", HVal.num 2)], .obj [], .obj [], .obj [], .obj [],
        .obj [], .obj []] : Store)[r]?
        = ([HObj.obj [("a", HVal.num 2)]] : Store)[r]?)
    ∧ ∀ (d : Nat) (v : HVal),
        valBounded [HObj.obj [("a", HVal.num 2)]] v →
        readTree d [HObj.obj [("a", HVal.num 2)], .obj [], .obj [], .obj [],
          .obj [], .obj [], .obj []] v
          = readTree d [HObj.obj [("a", HVal.num 2)]] v := by
  have hclosed : storeClosed [HObj.obj [("a", HVal.num 2)]] := by
    intro r hr v hv r2 he
    have hr1 : r < 1 := by simpa using hr
    interval_cases r
    simp [storeVals, objVals] at hv
    subst hv
    cases he
  exact extraction_no_mutation_c7 1 [{ env := HVal.ref 0 }] []
    [HObj.obj [("a", HVal.num 2)]] none
    [HObj.obj [("a", HVal.num 2)], .obj [], .obj [], .obj [], .obj [],
      .obj [], .obj []] hclosed rfl
